import Mathlib

/-!
# Verification of the structural break detector (`find_trend_break`)

Shallow embedding of the analytics core of `src/pages/4_NightLight_Breaks.py`
(the `find_trend_break` function) and proofs of the specified properties.

Modelling conventions:
* A time series row is a pair `(timestamp, value)`; a possibly-missing value is
  an `Option ℚ` (pandas `dropna` removes missing rows, `sort_values` orders by
  timestamp; with distinct timestamps every correct sort produces the same
  list, so a stable insertion sort is used).
* Exact rational arithmetic stands in for IEEE doubles in the least-squares
  part.  The logarithm-based BIC values are real-valued; the special float
  values that `np.log`/`np.inf` produce on this code path (`-inf` on
  `log 0`, `inf` as the initial best BIC, `nan` from `inf - inf`) are
  modelled explicitly by the `FloatVal` type, with numpy's comparison
  semantics (`nan` compares false).
* `np.linalg.lstsq` on the design matrix `[1, t]` is embedded by the
  closed-form normal-equation solution: `SSE = Syy' - Sxy^2/Sxx` with the
  centered sums; for degenerate designs (fewer than two rows) rational
  division by zero yields `SSE = 0`, matching the exact-fit residual of the
  minimum-norm `lstsq` solution.  The two-segment design
  `[1, t, I(t>=k), I(t>=k)*(t-t_k)]` spans, on each of the two row blocks
  `t < k` and `t >= k`, exactly the span of `[1, t]` on that block, so its
  least-squares residual decomposes as the sum of the two per-segment simple
  fits; `sseAt` embeds it that way.
* The loop selecting the best split compares `BIC(k) = n*log(SSE_k/n) + 4*log n`
  with strict `<` starting from `inf`.  For a fixed `n` this order agrees with
  the order on the (nonnegative) `SSE_k` themselves, `SSE = 0` corresponding to
  `BIC = -inf` (lemma `bicF_lt_iff` below), so `bestSplit` carries the `SSE`
  values; first-minimizer tie-breaking is preserved.
-/

/-- The float values arising in the BIC computation of `find_trend_break`:
ordinary finite doubles (idealized as reals), the two infinities, and `nan`. -/
inductive FloatVal : Type
  | nan : FloatVal
  | neginf : FloatVal
  | posinf : FloatVal
  | fin : ℝ → FloatVal

/-- IEEE subtraction on the values we track: `(-inf) - (-inf) = nan`,
`inf - inf = nan`, any operation with `nan` gives `nan`. -/
def FloatVal.sub : FloatVal → FloatVal → FloatVal
  | .nan, _ => .nan
  | _, .nan => .nan
  | .fin a, .fin b => .fin (a - b)
  | .fin _, .neginf => .posinf
  | .fin _, .posinf => .neginf
  | .neginf, .neginf => .nan
  | .neginf, _ => .neginf
  | .posinf, .posinf => .nan
  | .posinf, _ => .posinf

/-- IEEE `<=` on tracked float values; any comparison with `nan` is false. -/
def FloatVal.le : FloatVal → FloatVal → Prop
  | .nan, _ => False
  | _, .nan => False
  | .neginf, _ => True
  | _, .posinf => True
  | .posinf, _ => False
  | .fin _, .neginf => False
  | .fin a, .fin b => a ≤ b

/-- IEEE `<` on tracked float values; any comparison with `nan` is false. -/
def FloatVal.lt : FloatVal → FloatVal → Prop
  | .nan, _ => False
  | _, .nan => False
  | .neginf, .neginf => False
  | .neginf, _ => True
  | .posinf, _ => False
  | .fin _, .posinf => True
  | .fin _, .neginf => False
  | .fin a, .fin b => a < b

/-- `v <= threshold` for a real threshold: the acceptance test
`delta_bic <= bic_threshold` of `find_trend_break`. -/
def hbLe (v : FloatVal) (t : ℝ) : Prop := v.le (.fin t)

/-- Parameters of `find_trend_break` (same names as the Python keyword
arguments). -/
structure BreakParams where
  min_segment : ℕ
  bic_threshold : ℚ
  pre_window : ℕ
  post_window : ℕ
  min_gap_post : ℕ

/-- The Python defaults: `min_segment=6, bic_threshold=-10, pre_window=6,
post_window=12, min_gap_post=1`. -/
def defaultParams : BreakParams :=
  { min_segment := 6, bic_threshold := -10, pre_window := 6,
    post_window := 12, min_gap_post := 1 }

/-- The typed error raised on too-short input
(`raise ValueError(f"Need at least {2*min_segment+1} rows, got {n}.")`);
the spec calls it `InsufficientDataError`. -/
inductive BreakError : Type
  | insufficientData : BreakError
deriving DecidableEq

/-- The result dictionary of `find_trend_break`.  In the no-break dictionary
the Python code stores `None` for the date fields and omits the mean fields;
both are modelled as `none`. -/
structure BreakResult where
  has_break : Bool
  delta_bic : FloatVal
  break_date : Option ℕ
  pre_image_date : Option ℕ
  post_image_date : Option ℕ
  pre_mean : Option ℚ
  post_mean : Option ℚ

/-- `x = df[[date_col, value_col]].dropna(); x = x.sort_values(date_col)`:
drop missing values, then sort by timestamp (timestamps are distinct by the
spec's data-model invariant, so any sorting algorithm gives this result). -/
def prepSeries (df : List (ℕ × Option ℚ)) : List (ℕ × ℚ) :=
  List.insertionSort (fun a b => a.1 ≤ b.1)
    (df.filterMap fun q => q.2.map fun v => (q.1, v))

/-- The value column `y` of the prepared series. -/
def valuesOf (df : List (ℕ × Option ℚ)) : List ℚ :=
  (prepSeries df).map Prod.snd

/-- `t = np.arange(n)` zipped with `y`: the regression points `(i, y_i)`. -/
def idxPts (y : List ℚ) : List (ℚ × ℚ) :=
  (List.range y.length).map fun (i : ℕ) => ((i : ℚ), y.getD i 0)

/-- Sum of squared residuals of the ordinary least-squares fit of
`value ~ 1 + t` over the given points (the residual of
`np.linalg.lstsq(column_stack([ones, t]), y)`), in normal-equation closed
form.  For lists with fewer than two points the rational convention
`x / 0 = 0` makes this `0`, the residual of the exact minimum-norm fit. -/
def linSSE (pts : List (ℚ × ℚ)) : ℚ :=
  let m : ℚ := pts.length
  let st := (pts.map Prod.fst).sum
  let sy := (pts.map Prod.snd).sum
  let stt := (pts.map fun q => q.1 ^ 2).sum
  let sty := (pts.map fun q => q.1 * q.2).sum
  let syy := (pts.map fun q => q.2 ^ 2).sum
  let sxx := stt - st ^ 2 / m
  let sxy := sty - st * sy / m
  let syyc := syy - sy ^ 2 / m
  syyc - sxy ^ 2 / sxx

/-- `sse1`: residual of the single linear trend over all of `y`. -/
def sse1Of (y : List ℚ) : ℚ := linSSE (idxPts y)

/-- `SSE(k)`: residual of the two-segment piecewise-linear fit
`y ~ [1, t, I(t>=k), I(t>=k)*(t-t_k)]`, which decomposes as the sum of the
per-segment simple fits (see the header comment). -/
def sseAt (y : List ℚ) (k : ℕ) : ℚ :=
  linSSE ((idxPts y).take k) + linSSE ((idxPts y).drop k)

/-- The best-split loop
`for k in range(min_segment, n - min_segment): if bic_k < best_bic: update`,
carried on the `SSE` values (whose order agrees with the BIC order, cf.
`bicF_lt_iff`); `none` is the initial `best_k = None`. -/
def bestSplit (y : List ℚ) (m : ℕ) : Option (ℕ × ℚ) :=
  (List.range' m (y.length - 2 * m)).foldl
    (fun acc k =>
      match acc with
      | none => some (k, sseAt y k)
      | some best => if sseAt y k < best.2 then some (k, sseAt y k) else acc)
    none

/-- `np.mean` of a value list (`sum / len`; empty lists give `0/0 = 0`). -/
def qmean (l : List ℚ) : ℚ := l.sum / l.length

/-- `np.argmin` of `f` over an index list: first index attaining the
minimum.  (Total with default `0` on `[]`; `find_trend_break` only applies it
to nonempty candidate lists.) -/
def argminIdx (f : ℕ → ℚ) (l : List ℕ) : ℕ :=
  match l with
  | [] => 0
  | h :: t => t.foldl (fun b i => if f i < f b then i else b) h

/-- Pre-break candidate indices:
`pre_lo = max(0, k - pre_window - 1); pre_hi = max(pre_lo, k - 1);`
`arange(pre_lo, pre_hi) if pre_hi > pre_lo else arange(0, k)`
(ℕ-subtraction is the `max(0, ·)`). -/
def preCands (k pw : ℕ) : List ℕ :=
  let pre_lo := k - pw - 1
  let pre_hi := max pre_lo (k - 1)
  if pre_lo < pre_hi then List.range' pre_lo (pre_hi - pre_lo) else List.range k

/-- `pre_idx = pre_candidates[np.argmin(np.abs(y[pre_candidates] - pre_mean))]`. -/
def preIdx (y : List ℚ) (pm : ℚ) (k pw : ℕ) : ℕ :=
  argminIdx (fun i => |y.getD i 0 - pm|) (preCands k pw)

/-- Post-break candidate indices:
`post_start = min(k + max(1, min_gap_post), n-1); post_end = min(k + post_window, n-1);`
`arange(post_start, post_end+1) if post_end >= post_start else arange(k, n)`. -/
def postCands (n k pwin gap : ℕ) : List ℕ :=
  let ps := min (k + max 1 gap) (n - 1)
  let pe := min (k + pwin) (n - 1)
  if ps ≤ pe then List.range' ps (pe + 1 - ps) else List.range' k (n - k)

/-- `post_idx = post_candidates[np.argmin(np.abs(y[post_candidates] - post_mean))]`. -/
def postIdx (y : List ℚ) (pm : ℚ) (n k pwin gap : ℕ) : ℕ :=
  argminIdx (fun i => |y.getD i 0 - pm|) (postCands n k pwin gap)

/-- `BIC = n*log(SSE/n) + p*log(n)` as the float value numpy produces:
`-inf` when `SSE = 0` (from `np.log(0.0)`), `nan` when `SSE < 0`
(from `np.log` of a negative number; never reached for genuine residuals). -/
noncomputable def bicF (n p : ℕ) (s : ℚ) : FloatVal :=
  if s < 0 then .nan
  else if s = 0 then .neginf
  else .fin ((n : ℝ) * Real.log ((s : ℝ) / (n : ℝ)) + (p : ℝ) * Real.log (n : ℝ))

open Classical in
/-- The structural break detector `find_trend_break` of
`src/pages/4_NightLight_Breaks.py` (pure computation; the `st.*` presentation
calls have no effect on the returned dictionary and are omitted). -/
noncomputable def find_trend_break (p : BreakParams) (df : List (ℕ × Option ℚ)) :
    Except BreakError BreakResult :=
  let x := prepSeries df
  let y := x.map Prod.snd
  let n := y.length
  if n < 2 * p.min_segment + 1 then .error .insufficientData
  else
    let sse1 := sse1Of y
    let bic1 := bicF n 2 sse1
    match bestSplit y p.min_segment with
    | none =>
        -- empty candidate range: `best_bic` stays `inf`, `delta = inf - bic1`,
        -- `has_break = (delta <= threshold)` is false for `inf` and `nan`
        .ok ⟨false, FloatVal.posinf.sub bic1, none, none, none, none, none⟩
    | some best =>
        let delta := (bicF n 4 best.2).sub bic1
        if hbLe delta (p.bic_threshold : ℝ) then
          let k := best.1
          let pre_mean := qmean (y.take k)
          let post_mean := qmean (y.drop k)
          let pi := preIdx y pre_mean k p.pre_window
          let qi := postIdx y post_mean n k p.post_window p.min_gap_post
          .ok ⟨true, delta, some ((x.getD k (0, 0)).1), some ((x.getD pi (0, 0)).1),
               some ((x.getD qi (0, 0)).1), some pre_mean, some post_mean⟩
        else
          .ok ⟨false, delta, none, none, none, none, none⟩

/-- Modelled from the spec (claim C5's reading of §4.1): the post
representative index searched in the window
`[min(k*+post_gap, n-1), min(k*+post_window, n-1)]` — with the raw
`post_gap`, not the code's `max(1, min_gap_post)`. -/
def specPostIdx (y : List ℚ) (pm : ℚ) (n k pwin gap : ℕ) : ℕ :=
  let ps := min (k + gap) (n - 1)
  let pe := min (k + pwin) (n - 1)
  argminIdx (fun i => |y.getD i 0 - pm|)
    (if ps ≤ pe then List.range' ps (pe + 1 - ps) else List.range' k (n - k))

/-! ## Concrete series used in witnesses and counterexamples -/

/-- The spec's end-to-end example series: monthly values
`[5,5,6,5,6,5, 40,42,41,43,40,42]` at timestamps `0..11`. -/
def df12 : List (ℕ × Option ℚ) :=
  [(0, some 5), (1, some 5), (2, some 6), (3, some 5), (4, some 6), (5, some 5),
   (6, some 40), (7, some 42), (8, some 41), (9, some 43), (10, some 40), (11, some 42)]

/-- The value column of `df12`. -/
def y12 : List ℚ := [5, 5, 6, 5, 6, 5, 40, 42, 41, 43, 40, 42]

/-- `df12` with the values at indices 6 and 8 swapped, so that the sample at
the break index itself is the one closest to the post mean. -/
def df12b : List (ℕ × Option ℚ) :=
  [(0, some 5), (1, some 5), (2, some 6), (3, some 5), (4, some 6), (5, some 5),
   (6, some 41), (7, some 42), (8, some 40), (9, some 43), (10, some 40), (11, some 42)]

/-- The value column of `df12b`. -/
def y12b : List ℚ := [5, 5, 6, 5, 6, 5, 41, 42, 40, 43, 40, 42]

/-- `df12` extended by one more sample: exactly `2*6+1 = 13` rows. -/
def df13 : List (ℕ × Option ℚ) := df12 ++ [(12, some 43)]

/-- An exactly linear 13-sample series: `value = 1 + 2*t`. -/
def df13lin : List (ℕ × Option ℚ) :=
  [(0, some 1), (1, some 3), (2, some 5), (3, some 7), (4, some 9), (5, some 11),
   (6, some 13), (7, some 15), (8, some 17), (9, some 19), (10, some 21), (11, some 23),
   (12, some 25)]

/-- An alternating 13-sample series `0,1,0,1,...` with no trend structure:
the two-segment fit barely improves on the single fit. -/
def df13alt : List (ℕ × Option ℚ) :=
  [(0, some 0), (1, some 1), (2, some 0), (3, some 1), (4, some 0), (5, some 1),
   (6, some 0), (7, some 1), (8, some 0), (9, some 1), (10, some 0), (11, some 1),
   (12, some 0)]

/-- The value column of `df13alt`. -/
def y13alt : List ℚ := [0, 1, 0, 1, 0, 1, 0, 1, 0, 1, 0, 1, 0]

/-- Default parameters with `min_segment` lowered to 5, the largest value for
which the 12-sample example satisfies the length precondition. -/
def paramsM5 : BreakParams := { defaultParams with min_segment := 5 }

/-! ## Basic facts about the float model -/

lemma hbLe_mono {v : FloatVal} {a b : ℝ} (h : hbLe v a) (hab : a ≤ b) : hbLe v b := by
  cases v with
  | nan => exact h.elim
  | neginf => trivial
  | posinf => exact h.elim
  | fin x => exact le_trans h hab

lemma hbLe_nan (t : ℝ) : ¬ hbLe FloatVal.nan t := fun h => h

lemma hbLe_posinf (t : ℝ) : ¬ hbLe FloatVal.posinf t := fun h => h

lemma posinf_sub_not_hbLe (v : FloatVal) (t : ℝ) : ¬ hbLe (FloatVal.posinf.sub v) t := by
  cases v <;> simp [FloatVal.sub, hbLe, FloatVal.le]

/-! ## Real-analysis bounds for the BIC difference

`delta = BIC(k*) - BIC1 = n*log(SSE_k/SSE1) + 2*log n` (for positive residuals).
The two lemmas below bound it on either side from rational inequalities
between `SSE_k` and `SSE1`, so that concrete verdicts can be established
by rational arithmetic. -/

lemma exp_four_le : Real.exp 4 ≤ 100 := by
  have h1 : Real.exp 4 = Real.exp 1 ^ 4 := by
    rw [← Real.exp_nat_mul]; norm_num
  have h2 : Real.exp 1 ^ 4 ≤ 2.7182818286 ^ 4 :=
    pow_le_pow_left₀ (Real.exp_pos 1).le Real.exp_one_lt_d9.le 4
  have h3 : (2.7182818286 : ℝ) ^ 4 ≤ 100 := by norm_num
  linarith

lemma four_le_log_hundred : (4 : ℝ) ≤ Real.log 100 := by
  rw [Real.le_log_iff_exp_le (by norm_num)]
  exact exp_four_le

/-- If the best two-segment residual is at most a hundredth of the single-fit
residual, the BIC difference is a finite value below `-2n-2` (hence below the
default threshold `-10` for any `n ≥ 4`). -/
lemma delta_le_of_ratio {n : ℕ} {sk s1 : ℚ} (hn : 4 ≤ n) (hsk : 0 < sk)
    (hr : 100 * sk ≤ s1) :
    ∃ d : ℝ, (bicF n 4 sk).sub (bicF n 2 s1) = .fin d ∧ d ≤ -2 * (n : ℝ) - 2 := by
  have hs1 : 0 < s1 := lt_of_lt_of_le (by positivity) hr
  have hskR : (0:ℝ) < ((sk : ℚ) : ℝ) := by exact_mod_cast hsk
  have hs1R : (0:ℝ) < ((s1 : ℚ) : ℝ) := by exact_mod_cast hs1
  have hnR : (0:ℝ) < (n : ℝ) := by
    have h0 : (0:ℕ) < n := by omega
    exact_mod_cast h0
  have hbk : bicF n 4 sk =
      .fin ((n : ℝ) * Real.log ((sk : ℝ) / (n : ℝ)) + (4 : ℝ) * Real.log (n : ℝ)) := by
    rw [bicF, if_neg (by exact not_lt.mpr hsk.le), if_neg (by exact hsk.ne')]
    norm_num
  have hb1 : bicF n 2 s1 =
      .fin ((n : ℝ) * Real.log ((s1 : ℝ) / (n : ℝ)) + (2 : ℝ) * Real.log (n : ℝ)) := by
    rw [bicF, if_neg (by exact not_lt.mpr hs1.le), if_neg (by exact hs1.ne')]
    norm_num
  refine ⟨_, by rw [hbk, hb1]; rfl, ?_⟩
  rw [Real.log_div hskR.ne' hnR.ne', Real.log_div hs1R.ne' hnR.ne']
  have hlog : Real.log (sk : ℝ) ≤ Real.log (s1 : ℝ) - Real.log 100 := by
    have h1 : Real.log ((sk : ℝ) * 100) ≤ Real.log (s1 : ℝ) := by
      apply Real.log_le_log (by positivity)
      have h2 : ((100 * sk : ℚ) : ℝ) ≤ ((s1 : ℚ) : ℝ) := by exact_mod_cast hr
      push_cast at h2
      linarith
    rw [Real.log_mul hskR.ne' (by norm_num)] at h1
    linarith
  have hlogn : Real.log (n : ℝ) ≤ (n : ℝ) - 1 := Real.log_le_sub_one_of_pos hnR
  have h100 := four_le_log_hundred
  have hge : (4:ℝ) ≤ (n : ℝ) := by exact_mod_cast hn
  nlinarith [hlog, hlogn, h100, hge]

/-- If the best two-segment residual is at least nine tenths of the single-fit
residual (and `n ≤ 89`), the BIC difference is finite and above `-10`. -/
lemma delta_gt_of_ratio {n : ℕ} {sk s1 : ℚ} (hn1 : 1 ≤ n) (hn2 : n ≤ 89)
    (hs1 : 0 < s1) (hsk : 0 < sk) (hr : 9 * s1 ≤ 10 * sk) :
    ∃ d : ℝ, (bicF n 4 sk).sub (bicF n 2 s1) = .fin d ∧ -10 < d := by
  have hskR : (0:ℝ) < ((sk : ℚ) : ℝ) := by exact_mod_cast hsk
  have hs1R : (0:ℝ) < ((s1 : ℚ) : ℝ) := by exact_mod_cast hs1
  have hnR : (0:ℝ) < (n : ℝ) := by
    have h0 : (0:ℕ) < n := by omega
    exact_mod_cast h0
  have hbk : bicF n 4 sk =
      .fin ((n : ℝ) * Real.log ((sk : ℝ) / (n : ℝ)) + (4 : ℝ) * Real.log (n : ℝ)) := by
    rw [bicF, if_neg (by exact not_lt.mpr hsk.le), if_neg (by exact hsk.ne')]
    norm_num
  have hb1 : bicF n 2 s1 =
      .fin ((n : ℝ) * Real.log ((s1 : ℝ) / (n : ℝ)) + (2 : ℝ) * Real.log (n : ℝ)) := by
    rw [bicF, if_neg (by exact not_lt.mpr hs1.le), if_neg (by exact hs1.ne')]
    norm_num
  refine ⟨_, by rw [hbk, hb1]; rfl, ?_⟩
  rw [Real.log_div hskR.ne' hnR.ne', Real.log_div hs1R.ne' hnR.ne']
  have hdiv : ((s1 : ℚ) : ℝ) / ((sk : ℚ) : ℝ) ≤ 10 / 9 := by
    rw [div_le_div_iff₀ hskR (by norm_num)]
    have h2 : ((9 * s1 : ℚ) : ℝ) ≤ ((10 * sk : ℚ) : ℝ) := by exact_mod_cast hr
    push_cast at h2
    linarith
  have h1 : Real.log ((s1 : ℝ) / (sk : ℝ)) ≤ 1 / 9 := by
    have h3 := Real.log_le_sub_one_of_pos (x := ((s1:ℚ):ℝ) / ((sk:ℚ):ℝ)) (by positivity)
    linarith
  rw [Real.log_div hs1R.ne' hskR.ne'] at h1
  have hlogn : 0 ≤ Real.log (n : ℝ) := Real.log_nonneg (by exact_mod_cast hn1)
  have hle : (n : ℝ) ≤ 89 := by exact_mod_cast hn2
  nlinarith [h1, hlogn, hle, hnR]

/-! ## Least-squares algebra: nonnegativity and exact fits -/

lemma sum_sq_nonneg {α : Type} (l : List α) (f : α → ℚ) :
    0 ≤ (l.map fun q => (f q) ^ 2).sum := by
  induction l with
  | nil => simp
  | cons a t ih => simp only [List.map_cons, List.sum_cons]; positivity

lemma list_cauchy (l : List (ℚ × ℚ)) :
    ((l.map fun q => q.1 * q.2).sum) ^ 2 ≤
      ((l.map fun q => q.1 ^ 2).sum) * ((l.map fun q => q.2 ^ 2).sum) := by
  induction l with
  | nil => simp
  | cons q t ih =>
    simp only [List.map_cons, List.sum_cons]
    have hX := sum_sq_nonneg t (fun q => q.1)
    have hY := sum_sq_nonneg t (fun q => q.2)
    simp only at hX hY
    set a := q.1
    set b := q.2
    set S := (t.map fun q => q.1 * q.2).sum
    set X := (t.map fun q => q.1 ^ 2).sum
    set Y := (t.map fun q => q.2 ^ 2).sum
    have h1 : (2*a*b*S)^2 ≤ (a^2*Y + b^2*X)^2 := by
      nlinarith [sq_nonneg (a^2*Y - b^2*X), ih, sq_nonneg (a*b), mul_nonneg hX hY, sq_nonneg S]
    have h2 : (0:ℚ) ≤ a^2*Y + b^2*X := by positivity
    have h3 : 2*a*b*S ≤ a^2*Y + b^2*X := by nlinarith [h1, h2]
    nlinarith [ih, h3]

-- centered sums of a pair list
lemma centered_prod_sum (l : List (ℚ × ℚ)) (c d : ℚ) :
    ((l.map fun q => (q.1 - c) * (q.2 - d)).sum)
      = (l.map fun q => q.1 * q.2).sum - d * (l.map Prod.fst).sum
        - c * (l.map Prod.snd).sum + (l.length : ℚ) * (c * d) := by
  induction l with
  | nil => simp
  | cons q t ih =>
    simp only [List.map_cons, List.sum_cons, List.length_cons]
    push_cast
    rw [ih]; ring

lemma centered_fst_sq_sum (l : List (ℚ × ℚ)) (c : ℚ) :
    ((l.map fun q => (q.1 - c) ^ 2).sum)
      = (l.map fun q => q.1 ^ 2).sum - 2 * c * (l.map Prod.fst).sum
        + (l.length : ℚ) * c ^ 2 := by
  induction l with
  | nil => simp
  | cons q t ih =>
    simp only [List.map_cons, List.sum_cons, List.length_cons]
    push_cast
    rw [ih]; ring

lemma centered_snd_sq_sum (l : List (ℚ × ℚ)) (d : ℚ) :
    ((l.map fun q => (q.2 - d) ^ 2).sum)
      = (l.map fun q => q.2 ^ 2).sum - 2 * d * (l.map Prod.snd).sum
        + (l.length : ℚ) * d ^ 2 := by
  induction l with
  | nil => simp
  | cons q t ih =>
    simp only [List.map_cons, List.sum_cons, List.length_cons]
    push_cast
    rw [ih]; ring

lemma linSSE_eq (pts : List (ℚ × ℚ)) :
    linSSE pts = ((pts.map fun q => q.2 ^ 2).sum - (pts.map Prod.snd).sum ^ 2 / (pts.length : ℚ))
      - ((pts.map fun q => q.1 * q.2).sum
          - (pts.map Prod.fst).sum * (pts.map Prod.snd).sum / (pts.length : ℚ)) ^ 2
        / ((pts.map fun q => q.1 ^ 2).sum - (pts.map Prod.fst).sum ^ 2 / (pts.length : ℚ)) := rfl

lemma linSSE_nonneg (pts : List (ℚ × ℚ)) : 0 ≤ linSSE pts := by
  rcases eq_or_ne pts.length 0 with hm | hm
  · rw [List.length_eq_zero] at hm
    subst hm
    simp [linSSE]
  · have hmQ : ((pts.length : ℚ)) ≠ 0 := by exact_mod_cast hm
    rw [linSSE_eq]
    set m : ℚ := (pts.length : ℚ) with hm_def
    set st := (pts.map Prod.fst).sum with hst
    set sy := (pts.map Prod.snd).sum with hsy
    set stt := (pts.map fun q => q.1 ^ 2).sum with hstt
    set sty := (pts.map fun q => q.1 * q.2).sum with hsty
    set syy := (pts.map fun q => q.2 ^ 2).sum with hsyy
    have ef : ((pts.map fun q => (q.1 - st / m) ^ 2).sum) = stt - st ^ 2 / m := by
      rw [centered_fst_sq_sum, ← hst, ← hstt, ← hm_def]
      field_simp
      ring
    have es : ((pts.map fun q => (q.2 - sy / m) ^ 2).sum) = syy - sy ^ 2 / m := by
      rw [centered_snd_sq_sum, ← hsy, ← hsyy, ← hm_def]
      field_simp
      ring
    have ep : ((pts.map fun q => (q.1 - st / m) * (q.2 - sy / m)).sum) = sty - st * sy / m := by
      rw [centered_prod_sum, ← hst, ← hsy, ← hsty, ← hm_def]
      field_simp
      ring
    have hcs := list_cauchy (pts.map (fun q : ℚ × ℚ => (q.1 - st / m, q.2 - sy / m)))
    rw [List.map_map, List.map_map, List.map_map] at hcs
    simp only [Function.comp_def] at hcs
    rw [ef, es, ep] at hcs
    have hsxx : 0 ≤ stt - st ^ 2 / m := by
      have h4 := sum_sq_nonneg pts (fun q => q.1 - st / m)
      simp only at h4
      rw [ef] at h4
      exact h4
    have hsyyc : 0 ≤ syy - sy ^ 2 / m := by
      have h4 := sum_sq_nonneg pts (fun q => q.2 - sy / m)
      simp only at h4
      rw [es] at h4
      exact h4
    rcases eq_or_ne (stt - st ^ 2 / m) 0 with h0 | h0
    · rw [h0, div_zero]
      linarith
    · have hpos : 0 < stt - st ^ 2 / m := lt_of_le_of_ne hsxx (Ne.symm h0)
      rw [sub_nonneg, div_le_iff₀ hpos]
      nlinarith [hcs]

lemma line_sums (a b : ℚ) (pts : List (ℚ × ℚ)) (h : ∀ q ∈ pts, q.2 = a + b * q.1) :
    (pts.map Prod.snd).sum = a * pts.length + b * (pts.map Prod.fst).sum ∧
    (pts.map fun q => q.1 * q.2).sum = a * (pts.map Prod.fst).sum + b * (pts.map fun q => q.1 ^ 2).sum ∧
    (pts.map fun q => q.2 ^ 2).sum
      = a ^ 2 * pts.length + 2 * a * b * (pts.map Prod.fst).sum + b ^ 2 * (pts.map fun q => q.1 ^ 2).sum := by
  induction pts with
  | nil => simp
  | cons q t ih =>
    obtain ⟨e1, e2, e3⟩ := ih (fun r hr => h r (List.mem_cons_of_mem q hr))
    have hq := h q (List.mem_cons_self q t)
    simp only [List.map_cons, List.sum_cons, List.length_cons]
    push_cast
    rw [e1, e2, e3, hq]
    refine ⟨by ring, by ring, by ring⟩

lemma linSSE_of_line (a b : ℚ) (pts : List (ℚ × ℚ)) (h : ∀ q ∈ pts, q.2 = a + b * q.1) :
    linSSE pts = 0 := by
  rcases eq_or_ne pts.length 0 with hm | hm
  · rw [List.length_eq_zero] at hm
    subst hm
    simp [linSSE]
  · have hmQ : ((pts.length : ℚ)) ≠ 0 := by exact_mod_cast hm
    obtain ⟨e1, e2, e3⟩ := line_sums a b pts h
    rw [linSSE_eq, e1, e2, e3]
    set m : ℚ := (pts.length : ℚ)
    set st := (pts.map Prod.fst).sum
    set stt := (pts.map fun q => q.1 ^ 2).sum
    have f1 : a ^ 2 * m + 2 * a * b * st + b ^ 2 * stt - (a * m + b * st) ^ 2 / m
        = b ^ 2 * (stt - st ^ 2 / m) := by
      field_simp
      ring
    have f2 : a * st + b * stt - st * (a * m + b * st) / m = b * (stt - st ^ 2 / m) := by
      field_simp
      ring
    rw [f1, f2]
    rcases eq_or_ne (stt - st ^ 2 / m) 0 with h0 | h0
    · rw [h0]
      simp
    · have hdiv : (b * (stt - st ^ 2 / m)) ^ 2 / (stt - st ^ 2 / m)
          = b ^ 2 * (stt - st ^ 2 / m) := by
        rw [div_eq_iff h0]
        ring
      rw [hdiv]
      ring

/-! ## First-minimizer properties of the argmin folds -/

lemma foldl_argmin_spec (f : ℕ → ℚ) :
    ∀ (l : List ℕ) (b : ℕ), (∀ i ∈ l, b < i) → l.Pairwise (· < ·) →
      (l.foldl (fun acc i => if f i < f acc then i else acc) b = b ∨
        l.foldl (fun acc i => if f i < f acc then i else acc) b ∈ l) ∧
      f (l.foldl (fun acc i => if f i < f acc then i else acc) b) ≤ f b ∧
      (∀ i ∈ l, f (l.foldl (fun acc i => if f i < f acc then i else acc) b) ≤ f i) ∧
      (∀ i, (i = b ∨ i ∈ l) →
        f i ≤ f (l.foldl (fun acc i => if f i < f acc then i else acc) b) →
        l.foldl (fun acc i => if f i < f acc then i else acc) b ≤ i) := by
  intro l
  induction l with
  | nil =>
    intro b _ _
    refine ⟨Or.inl rfl, le_refl _, by simp, ?_⟩
    rintro i (rfl | h) _
    · exact le_refl _
    · simp at h
  | cons h t ih =>
    intro b hb hp
    have hbh : b < h := hb h (List.mem_cons_self h t)
    have hht : ∀ i ∈ t, h < i := fun i hi => (List.pairwise_cons.mp hp).1 i hi
    have hpt : t.Pairwise (· < ·) := (List.pairwise_cons.mp hp).2
    simp only [List.foldl_cons]
    by_cases hc : f h < f b
    · rw [if_pos hc]
      obtain ⟨m1, m2, m3, m4⟩ := ih h hht hpt
      refine ⟨?_, ?_, ?_, ?_⟩
      · rcases m1 with h1 | h1
        · exact Or.inr (by rw [h1]; exact List.mem_cons_self h t)
        · exact Or.inr (List.mem_cons_of_mem h h1)
      · exact le_trans m2 hc.le
      · intro i hi
        rcases List.mem_cons.mp hi with rfl | hi
        · exact m2
        · exact m3 i hi
      · intro i hi hfi
        rcases hi with rfl | hi
        · -- i = b, but f(result) ≤ f h < f b ≤ f(result): contradiction
          exact absurd (lt_of_le_of_lt m2 hc) (not_lt.mpr hfi)
        · rcases List.mem_cons.mp hi with rfl | hi
          · exact m4 i (Or.inl rfl) hfi
          · exact m4 i (Or.inr hi) hfi
    · rw [if_neg hc]
      obtain ⟨m1, m2, m3, m4⟩ := ih b (fun i hi => lt_trans hbh (hht i hi)) hpt
      refine ⟨?_, m2, ?_, ?_⟩
      · rcases m1 with h1 | h1
        · exact Or.inl h1
        · exact Or.inr (List.mem_cons_of_mem h h1)
      · intro i hi
        rcases List.mem_cons.mp hi with rfl | hi
        · exact le_trans m2 (not_lt.mp hc)
        · exact m3 i hi
      · intro i hi hfi
        rcases hi with rfl | hi
        · exact m4 i (Or.inl rfl) hfi
        · rcases List.mem_cons.mp hi with rfl | hi
          · -- i = h: result ≤ b < h
            have hrb := m4 b (Or.inl rfl) (le_trans (not_lt.mp hc) hfi)
            exact le_of_lt (lt_of_le_of_lt hrb hbh)
          · exact m4 i (Or.inr hi) hfi

lemma argminIdx_spec (f : ℕ → ℚ) (l : List ℕ) (hne : l ≠ []) (hp : l.Pairwise (· < ·)) :
    argminIdx f l ∈ l ∧ (∀ i ∈ l, f (argminIdx f l) ≤ f i) ∧
      (∀ i ∈ l, f i ≤ f (argminIdx f l) → argminIdx f l ≤ i) := by
  match l with
  | [] => exact absurd rfl hne
  | h :: t =>
    have hht : ∀ i ∈ t, h < i := fun i hi => (List.pairwise_cons.mp hp).1 i hi
    have hpt : t.Pairwise (· < ·) := (List.pairwise_cons.mp hp).2
    obtain ⟨m1, m2, m3, m4⟩ := foldl_argmin_spec f t h hht hpt
    rw [argminIdx]
    refine ⟨?_, ?_, ?_⟩
    · rcases m1 with h1 | h1
      · rw [h1]; exact List.mem_cons_self h t
      · exact List.mem_cons_of_mem h h1
    · intro i hi
      rcases List.mem_cons.mp hi with rfl | hi
      · exact m2
      · exact m3 i hi
    · intro i hi hfi
      rcases List.mem_cons.mp hi with rfl | hi
      · exact m4 i (Or.inl rfl) hfi
      · exact m4 i (Or.inr hi) hfi

lemma foldl_pair_eq (f : ℕ → ℚ) :
    ∀ (t : List ℕ) (b : ℕ),
      t.foldl (fun acc i => if f i < acc.2 then (i, f i) else acc) (b, f b)
        = (t.foldl (fun acc i => if f i < f acc then i else acc) b,
           f (t.foldl (fun acc i => if f i < f acc then i else acc) b)) := by
  intro t
  induction t with
  | nil => intro b; rfl
  | cons i t ih =>
    intro b
    simp only [List.foldl_cons]
    by_cases hc : f i < f b
    · rw [if_pos hc, if_pos hc, ih]
    · rw [if_neg hc, if_neg hc, ih]

lemma foldl_some_eq (f : ℕ → ℚ) :
    ∀ (t : List ℕ) (b : ℕ × ℚ),
      t.foldl (fun acc k =>
          match acc with
          | none => some (k, f k)
          | some best => if f k < best.2 then some (k, f k) else acc) (some b)
        = some (t.foldl (fun acc i => if f i < acc.2 then (i, f i) else acc) b) := by
  intro t
  induction t with
  | nil => intro b; rfl
  | cons i t ih =>
    intro b
    simp only [List.foldl_cons]
    by_cases hc : f i < b.2
    · rw [if_pos hc, ih, if_pos hc]
    · rw [if_neg hc, ih, if_neg hc]

lemma bestSplit_spec (y : List ℚ) (m : ℕ) (hne : y.length - 2 * m ≠ 0) :
    ∃ k, bestSplit y m = some (k, sseAt y k) ∧
      k ∈ List.range' m (y.length - 2 * m) ∧
      (∀ j ∈ List.range' m (y.length - 2 * m), sseAt y k ≤ sseAt y j) ∧
      (∀ j ∈ List.range' m (y.length - 2 * m), sseAt y j ≤ sseAt y k → k ≤ j) := by
  obtain ⟨len, hlen⟩ := Nat.exists_eq_succ_of_ne_zero hne
  have hsplit : List.range' m (y.length - 2 * m) = m :: List.range' (m + 1) len := by
    rw [hlen, List.range'_succ]
  have hmt : ∀ i ∈ List.range' (m + 1) len, m < i := by
    intro i hi
    rw [List.mem_range'] at hi
    obtain ⟨j, _, rfl⟩ := hi
    omega
  have hpt : (List.range' (m + 1) len).Pairwise (· < ·) := List.pairwise_lt_range' _ _
  obtain ⟨m1, m2, m3, m4⟩ := foldl_argmin_spec (sseAt y) (List.range' (m + 1) len) m hmt hpt
  set k := (List.range' (m + 1) len).foldl
    (fun acc i => if sseAt y i < sseAt y acc then i else acc) m with hk
  refine ⟨k, ?_, ?_, ?_, ?_⟩
  · rw [bestSplit, hsplit]
    simp only [List.foldl_cons]
    rw [foldl_some_eq (sseAt y), foldl_pair_eq (sseAt y), ← hk]
  · rw [hsplit]
    rcases m1 with h1 | h1
    · rw [h1]; exact List.mem_cons_self _ _
    · exact List.mem_cons_of_mem _ h1
  · intro j hj
    rw [hsplit] at hj
    rcases List.mem_cons.mp hj with rfl | hj
    · exact m2
    · exact m3 j hj
  · intro j hj hfj
    rw [hsplit] at hj
    rcases List.mem_cons.mp hj with rfl | hj
    · exact m4 j (Or.inl rfl) hfj
    · exact m4 j (Or.inr hj) hfj

/-! ## BIC as a monotone function of SSE -/

lemma sseAt_nonneg (y : List ℚ) (k : ℕ) : 0 ≤ sseAt y k :=
  add_nonneg (linSSE_nonneg _) (linSSE_nonneg _)

lemma sse1Of_nonneg (y : List ℚ) : 0 ≤ sse1Of y := linSSE_nonneg _

lemma bicF_zero (n p : ℕ) : bicF n p 0 = .neginf := by
  rw [bicF]
  norm_num

lemma bicF_fin_of_pos {n p : ℕ} {s : ℚ} (hs : 0 < s) :
    bicF n p s = .fin ((n : ℝ) * Real.log ((s : ℝ) / (n : ℝ)) + (p : ℝ) * Real.log (n : ℝ)) := by
  rw [bicF, if_neg (not_lt.mpr hs.le), if_neg hs.ne']

lemma bicF_fin_le_fin {n p : ℕ} {a b : ℚ} (hn : 1 ≤ n) (h0 : 0 < a) (hab : a ≤ b) :
    (n : ℝ) * Real.log ((a : ℝ) / (n : ℝ)) + (p : ℝ) * Real.log (n : ℝ)
      ≤ (n : ℝ) * Real.log ((b : ℝ) / (n : ℝ)) + (p : ℝ) * Real.log (n : ℝ) := by
  have hnR : (0:ℝ) < (n : ℝ) := by exact_mod_cast Nat.lt_of_lt_of_le Nat.zero_lt_one hn
  have haR : (0:ℝ) < ((a : ℚ) : ℝ) := by exact_mod_cast h0
  have habR : ((a : ℚ) : ℝ) ≤ ((b : ℚ) : ℝ) := by exact_mod_cast hab
  have hlog : Real.log ((a : ℝ) / (n : ℝ)) ≤ Real.log ((b : ℝ) / (n : ℝ)) :=
    Real.log_le_log (by positivity) (by gcongr)
  have := mul_le_mul_of_nonneg_left hlog hnR.le
  linarith

lemma bicF_mono {n p : ℕ} {a b : ℚ} (hn : 1 ≤ n) (ha : 0 ≤ a) (hab : a ≤ b) :
    (bicF n p a).le (bicF n p b) := by
  rcases eq_or_lt_of_le ha with h0 | h0
  · rw [← h0, bicF_zero]
    rcases eq_or_lt_of_le (le_trans ha hab) with hb0 | hb0
    · rw [← hb0, bicF_zero]; trivial
    · rw [bicF_fin_of_pos hb0]; trivial
  · have hb0 : 0 < b := lt_of_lt_of_le h0 hab
    rw [bicF_fin_of_pos h0, bicF_fin_of_pos hb0]
    exact bicF_fin_le_fin hn h0 hab

/-- Faithfulness bridge for `bestSplit`: for nonnegative residuals and fixed
`n ≥ 1`, the strict `<` the Python loop performs on the BIC values (with
`np.log(0) = -inf`) agrees with strict `<` on the SSE values themselves, so
carrying SSE in the fold preserves both the selection and the tie-breaking. -/
lemma bicF_lt_iff {n p : ℕ} {a b : ℚ} (hn : 1 ≤ n) (ha : 0 ≤ a) (hb : 0 ≤ b) :
    (bicF n p a).lt (bicF n p b) ↔ a < b := by
  rcases eq_or_lt_of_le ha with h0 | h0
  · rw [← h0, bicF_zero]
    rcases eq_or_lt_of_le hb with hb0 | hb0
    · rw [← hb0, bicF_zero]
      exact iff_of_false (fun h => h) (lt_irrefl 0)
    · rw [bicF_fin_of_pos hb0]
      exact iff_of_true trivial hb0
  · rcases eq_or_lt_of_le hb with hb0 | hb0
    · rw [← hb0, bicF_zero, bicF_fin_of_pos h0]
      exact iff_of_false (fun h => h) (by intro h; exact absurd (lt_trans h0 h) (lt_irrefl 0))
    · rw [bicF_fin_of_pos h0, bicF_fin_of_pos hb0]
      show (n : ℝ) * Real.log ((a : ℝ) / (n : ℝ)) + _ < (n : ℝ) * Real.log ((b : ℝ) / (n : ℝ)) + _ ↔ a < b
      have hnR : (0:ℝ) < (n : ℝ) := by exact_mod_cast Nat.lt_of_lt_of_le Nat.zero_lt_one hn
      have haR : (0:ℝ) < ((a : ℚ) : ℝ) := by exact_mod_cast h0
      have hbR : (0:ℝ) < ((b : ℚ) : ℝ) := by exact_mod_cast hb0
      rw [add_lt_add_iff_right, mul_lt_mul_left hnR,
        Real.log_lt_log_iff (by positivity) (by positivity),
        div_lt_div_iff_of_pos_right hnR]
      exact ⟨fun h => by exact_mod_cast h, fun h => by exact_mod_cast h⟩

/-! ## Candidate-window facts -/

lemma preCands_lt (k pw : ℕ) : ∀ i ∈ preCands k pw, i < k := by
  intro i hi
  rw [preCands] at hi
  by_cases hc : k - pw - 1 < max (k - pw - 1) (k - 1)
  · rw [if_pos hc] at hi
    rw [List.mem_range'] at hi
    obtain ⟨j, hj, rfl⟩ := hi
    have hlt : k - pw - 1 < k - 1 := by
      rcases max_cases (k - pw - 1) (k - 1) with ⟨he, _⟩ | ⟨he, hle⟩
      · rw [he] at hc; omega
      · omega
    omega
  · rw [if_neg hc] at hi
    exact List.mem_range.mp hi

lemma preCands_ne (k pw : ℕ) (hk : 1 ≤ k) : preCands k pw ≠ [] := by
  rw [preCands]
  by_cases hc : k - pw - 1 < max (k - pw - 1) (k - 1)
  · rw [if_pos hc]
    intro hcon
    have := List.range'_eq_nil.mp hcon
    omega
  · rw [if_neg hc]
    intro hcon
    have := List.range_eq_nil.mp hcon
    omega

lemma preCands_pairwise (k pw : ℕ) : (preCands k pw).Pairwise (· < ·) := by
  rw [preCands]
  by_cases hc : k - pw - 1 < max (k - pw - 1) (k - 1)
  · rw [if_pos hc]; exact List.pairwise_lt_range' _ _
  · rw [if_neg hc]; exact List.pairwise_lt_range _

lemma postCands_bounds (n k pwin gap : ℕ) (hk : k < n) :
    ∀ i ∈ postCands n k pwin gap, k ≤ i ∧ i < n := by
  intro i hi
  rw [postCands] at hi
  by_cases hc : min (k + max 1 gap) (n - 1) ≤ min (k + pwin) (n - 1)
  · rw [if_pos hc] at hi
    rw [List.mem_range'] at hi
    obtain ⟨j, hj, rfl⟩ := hi
    constructor
    · have h1 : k ≤ min (k + max 1 gap) (n - 1) := by omega
      omega
    · omega
  · rw [if_neg hc] at hi
    rw [List.mem_range'] at hi
    obtain ⟨j, hj, rfl⟩ := hi
    omega

lemma postCands_ne (n k pwin gap : ℕ) (hk : k < n) : postCands n k pwin gap ≠ [] := by
  rw [postCands]
  by_cases hc : min (k + max 1 gap) (n - 1) ≤ min (k + pwin) (n - 1)
  · rw [if_pos hc]
    intro hcon
    have := List.range'_eq_nil.mp hcon
    omega
  · rw [if_neg hc]
    intro hcon
    have := List.range'_eq_nil.mp hcon
    omega

lemma postCands_pairwise (n k pwin gap : ℕ) : (postCands n k pwin gap).Pairwise (· < ·) := by
  rw [postCands]
  by_cases hc : min (k + max 1 gap) (n - 1) ≤ min (k + pwin) (n - 1)
  · rw [if_pos hc]; exact List.pairwise_lt_range' _ _
  · rw [if_neg hc]; exact List.pairwise_lt_range' _ _

/-! ## Branch-level characterizations of `find_trend_break` -/

lemma ftb_err (p : BreakParams) (df : List (ℕ × Option ℚ))
    (hn : (valuesOf df).length < 2 * p.min_segment + 1) :
    find_trend_break p df = .error .insufficientData := by
  rw [valuesOf] at hn
  simp only [find_trend_break]
  rw [if_pos hn]

lemma ftb_break (p : BreakParams) (df : List (ℕ × Option ℚ)) (k : ℕ) (s : ℚ)
    (hn : ¬ ((valuesOf df).length < 2 * p.min_segment + 1))
    (hbs : bestSplit (valuesOf df) p.min_segment = some (k, s))
    (hd : hbLe ((bicF (valuesOf df).length 4 s).sub (bicF (valuesOf df).length 2 (sse1Of (valuesOf df))))
      ((p.bic_threshold : ℚ) : ℝ)) :
    find_trend_break p df = .ok
      { has_break := true,
        delta_bic := (bicF (valuesOf df).length 4 s).sub
          (bicF (valuesOf df).length 2 (sse1Of (valuesOf df))),
        break_date := some (((prepSeries df).getD k (0, 0)).1),
        pre_image_date := some (((prepSeries df).getD
          (preIdx (valuesOf df) (qmean ((valuesOf df).take k)) k p.pre_window) (0, 0)).1),
        post_image_date := some (((prepSeries df).getD
          (postIdx (valuesOf df) (qmean ((valuesOf df).drop k)) (valuesOf df).length k
            p.post_window p.min_gap_post) (0, 0)).1),
        pre_mean := some (qmean ((valuesOf df).take k)),
        post_mean := some (qmean ((valuesOf df).drop k)) } := by
  rw [valuesOf] at hn hbs hd
  simp only [find_trend_break]
  rw [if_neg hn, hbs]
  simp only
  rw [if_pos hd]
  rfl

lemma ftb_nobreak (p : BreakParams) (df : List (ℕ × Option ℚ)) (k : ℕ) (s : ℚ)
    (hn : ¬ ((valuesOf df).length < 2 * p.min_segment + 1))
    (hbs : bestSplit (valuesOf df) p.min_segment = some (k, s))
    (hd : ¬ hbLe ((bicF (valuesOf df).length 4 s).sub (bicF (valuesOf df).length 2 (sse1Of (valuesOf df))))
      ((p.bic_threshold : ℚ) : ℝ)) :
    find_trend_break p df = .ok
      { has_break := false,
        delta_bic := (bicF (valuesOf df).length 4 s).sub
          (bicF (valuesOf df).length 2 (sse1Of (valuesOf df))),
        break_date := none, pre_image_date := none, post_image_date := none,
        pre_mean := none, post_mean := none } := by
  rw [valuesOf] at hn hbs hd
  simp only [find_trend_break]
  rw [if_neg hn, hbs]
  simp only
  rw [if_neg hd]
  rfl

lemma ftb_nosplit (p : BreakParams) (df : List (ℕ × Option ℚ))
    (hn : ¬ ((valuesOf df).length < 2 * p.min_segment + 1))
    (hbs : bestSplit (valuesOf df) p.min_segment = none) :
    find_trend_break p df = .ok
      { has_break := false,
        delta_bic := FloatVal.posinf.sub (bicF (valuesOf df).length 2 (sse1Of (valuesOf df))),
        break_date := none, pre_image_date := none, post_image_date := none,
        pre_mean := none, post_mean := none } := by
  rw [valuesOf] at hn hbs
  simp only [find_trend_break]
  rw [if_neg hn, hbs]
  rfl

lemma ftb_break_inv (p : BreakParams) (df : List (ℕ × Option ℚ)) (r : BreakResult)
    (h : find_trend_break p df = .ok r) (hb : r.has_break = true) :
    ∃ k s, ¬ ((valuesOf df).length < 2 * p.min_segment + 1) ∧
      bestSplit (valuesOf df) p.min_segment = some (k, s) ∧
      hbLe ((bicF (valuesOf df).length 4 s).sub
        (bicF (valuesOf df).length 2 (sse1Of (valuesOf df)))) ((p.bic_threshold : ℚ) : ℝ) ∧
      r = { has_break := true,
            delta_bic := (bicF (valuesOf df).length 4 s).sub
              (bicF (valuesOf df).length 2 (sse1Of (valuesOf df))),
            break_date := some (((prepSeries df).getD k (0, 0)).1),
            pre_image_date := some (((prepSeries df).getD
              (preIdx (valuesOf df) (qmean ((valuesOf df).take k)) k p.pre_window) (0, 0)).1),
            post_image_date := some (((prepSeries df).getD
              (postIdx (valuesOf df) (qmean ((valuesOf df).drop k)) (valuesOf df).length k
                p.post_window p.min_gap_post) (0, 0)).1),
            pre_mean := some (qmean ((valuesOf df).take k)),
            post_mean := some (qmean ((valuesOf df).drop k)) } := by
  by_cases hn : (valuesOf df).length < 2 * p.min_segment + 1
  · rw [ftb_err p df hn] at h
    exact absurd h (by simp)
  · rcases hsplit : bestSplit (valuesOf df) p.min_segment with _ | ⟨k, s⟩
    · rw [ftb_nosplit p df hn hsplit] at h
      have hr := Except.ok.inj h
      rw [← hr] at hb
      simp at hb
    · by_cases hd : hbLe ((bicF (valuesOf df).length 4 s).sub
          (bicF (valuesOf df).length 2 (sse1Of (valuesOf df)))) ((p.bic_threshold : ℚ) : ℝ)
      · refine ⟨k, s, hn, rfl, hd, ?_⟩
        exact (Except.ok.inj ((ftb_break p df k s hn hsplit hd).symm.trans h)).symm
      · rw [ftb_nobreak p df k s hn hsplit hd] at h
        have hr := Except.ok.inj h
        rw [← hr] at hb
        simp at hb

/-! ## Claim theorems -/

/-- C3: a series whose usable sample count is exactly `2*min_segment_size + 1`
is accepted (the detector returns a result, no error); any series with fewer
usable samples yields the typed error `insufficientData` (the spec's
`InsufficientDataError`), not a silent no-break result. -/
theorem c3_min_length_boundary (p : BreakParams) (df : List (ℕ × Option ℚ)) :
    ((valuesOf df).length = 2 * p.min_segment + 1 →
      ∃ r, find_trend_break p df = .ok r) ∧
    ((valuesOf df).length < 2 * p.min_segment + 1 →
      find_trend_break p df = .error .insufficientData) := by
  constructor
  · intro heq
    have hn : ¬ ((valuesOf df).length < 2 * p.min_segment + 1) := by omega
    obtain ⟨k, hbs, _, _, _⟩ := bestSplit_spec (valuesOf df) p.min_segment (by omega)
    by_cases hd : hbLe ((bicF (valuesOf df).length 4 (sseAt (valuesOf df) k)).sub
        (bicF (valuesOf df).length 2 (sse1Of (valuesOf df)))) ((p.bic_threshold : ℚ) : ℝ)
    · exact ⟨_, ftb_break p df k _ hn hbs hd⟩
    · exact ⟨_, ftb_nobreak p df k _ hn hbs hd⟩
  · exact ftb_err p df

/-- Witness for C3 at concrete inputs: 13 samples are accepted with the
default `min_segment = 6`; the 12-sample spec example is rejected with the
typed error. -/
theorem c3_min_length_boundary_witness :
    ((valuesOf df13).length = 2 * defaultParams.min_segment + 1 ∧
      ∃ r, find_trend_break defaultParams df13 = .ok r) ∧
    ((valuesOf df12).length < 2 * defaultParams.min_segment + 1 ∧
      find_trend_break defaultParams df12 = .error .insufficientData) :=
  ⟨⟨by decide, (c3_min_length_boundary defaultParams df13).1 (by decide)⟩,
   ⟨by decide, (c3_min_length_boundary defaultParams df12).2 (by decide)⟩⟩

/-- C1: for input passing the length precondition, the detector computes
`BIC1 = n*log(SSE1/n) + 2*log n` from the single OLS fit (`bicF n 2 sse1Of`),
`BIC(k) = n*log(SSE(k)/n) + 4*log n` for every candidate break index `k` in
`[min_segment, n - min_segment)` (`bicF n 4 (sseAt k)`), selects `k*` as the
(first) argmin of BIC over that range, sets
`delta_criterion = BIC(k*) - BIC1`, and reports a break iff
`delta_criterion <= criterion_threshold`. -/
theorem c1_detector_structure (p : BreakParams) (df : List (ℕ × Option ℚ))
    (hn : 2 * p.min_segment + 1 ≤ (valuesOf df).length) :
    ∃ r k, find_trend_break p df = .ok r ∧
      bestSplit (valuesOf df) p.min_segment = some (k, sseAt (valuesOf df) k) ∧
      p.min_segment ≤ k ∧ k < (valuesOf df).length - p.min_segment ∧
      (∀ j, p.min_segment ≤ j → j < (valuesOf df).length - p.min_segment →
        (bicF (valuesOf df).length 4 (sseAt (valuesOf df) k)).le
          (bicF (valuesOf df).length 4 (sseAt (valuesOf df) j))) ∧
      r.delta_bic = (bicF (valuesOf df).length 4 (sseAt (valuesOf df) k)).sub
        (bicF (valuesOf df).length 2 (sse1Of (valuesOf df))) ∧
      (r.has_break = true ↔ hbLe r.delta_bic ((p.bic_threshold : ℚ) : ℝ)) := by
  have hn' : ¬ ((valuesOf df).length < 2 * p.min_segment + 1) := by omega
  obtain ⟨k, hbs, hmem, hmin, _⟩ := bestSplit_spec (valuesOf df) p.min_segment (by omega)
  rw [List.mem_range'] at hmem
  obtain ⟨j0, hj0, rfl⟩ := hmem
  have hb1 : p.min_segment ≤ p.min_segment + 1 * j0 := by omega
  have hb2 : p.min_segment + 1 * j0 < (valuesOf df).length - p.min_segment := by omega
  have hmono : ∀ j, p.min_segment ≤ j → j < (valuesOf df).length - p.min_segment →
      (bicF (valuesOf df).length 4 (sseAt (valuesOf df) (p.min_segment + 1 * j0))).le
        (bicF (valuesOf df).length 4 (sseAt (valuesOf df) j)) := by
    intro j h1 h2
    have hjmem : j ∈ List.range' p.min_segment ((valuesOf df).length - 2 * p.min_segment) :=
      List.mem_range'.mpr ⟨j - p.min_segment, by omega, by omega⟩
    exact bicF_mono (by omega) (sseAt_nonneg _ _) (hmin j hjmem)
  by_cases hd : hbLe ((bicF (valuesOf df).length 4 (sseAt (valuesOf df) (p.min_segment + 1 * j0))).sub
      (bicF (valuesOf df).length 2 (sse1Of (valuesOf df)))) ((p.bic_threshold : ℚ) : ℝ)
  · refine ⟨_, _, ftb_break p df _ _ hn' hbs hd, hbs, hb1, hb2, hmono, rfl, ?_⟩
    simpa using hd
  · refine ⟨_, _, ftb_nobreak p df _ _ hn' hbs hd, hbs, hb1, hb2, hmono, rfl, ?_⟩
    simpa using hd

/-- Witness for C1 at the concrete 13-sample series `df13` with default
parameters. -/
theorem c1_detector_structure_witness :
    2 * defaultParams.min_segment + 1 ≤ (valuesOf df13).length ∧
    (∃ r k, find_trend_break defaultParams df13 = .ok r ∧
      bestSplit (valuesOf df13) defaultParams.min_segment = some (k, sseAt (valuesOf df13) k) ∧
      defaultParams.min_segment ≤ k ∧
      k < (valuesOf df13).length - defaultParams.min_segment ∧
      (∀ j, defaultParams.min_segment ≤ j →
        j < (valuesOf df13).length - defaultParams.min_segment →
        (bicF (valuesOf df13).length 4 (sseAt (valuesOf df13) k)).le
          (bicF (valuesOf df13).length 4 (sseAt (valuesOf df13) j))) ∧
      r.delta_bic = (bicF (valuesOf df13).length 4 (sseAt (valuesOf df13) k)).sub
        (bicF (valuesOf df13).length 2 (sse1Of (valuesOf df13))) ∧
      (r.has_break = true ↔ hbLe r.delta_bic ((defaultParams.bic_threshold : ℚ) : ℝ))) :=
  ⟨by decide, c1_detector_structure defaultParams df13 (by decide)⟩

/-- C8: for a fixed series meeting the precondition and thresholds
`t1 <= t2`, a break reported at `t1` is also reported at `t2` (with the whole
result unchanged), and `delta_criterion` does not depend on the threshold at
all: the threshold only affects the verdict. -/
theorem c8_threshold_monotone (p : BreakParams) (df : List (ℕ × Option ℚ))
    (t1 t2 : ℚ) (h12 : t1 ≤ t2)
    (hn : 2 * p.min_segment + 1 ≤ (valuesOf df).length) :
    ∃ r1 r2, find_trend_break { p with bic_threshold := t1 } df = .ok r1 ∧
      find_trend_break { p with bic_threshold := t2 } df = .ok r2 ∧
      r1.delta_bic = r2.delta_bic ∧
      (r1.has_break = true → r2 = r1) := by
  have hn' : ¬ ((valuesOf df).length < 2 * p.min_segment + 1) := by omega
  obtain ⟨k, hbs, _, _, _⟩ := bestSplit_spec (valuesOf df) p.min_segment (by omega)
  by_cases h1 : hbLe ((bicF (valuesOf df).length 4 (sseAt (valuesOf df) k)).sub
      (bicF (valuesOf df).length 2 (sse1Of (valuesOf df)))) ((t1 : ℚ) : ℝ)
  · have h2 : hbLe ((bicF (valuesOf df).length 4 (sseAt (valuesOf df) k)).sub
        (bicF (valuesOf df).length 2 (sse1Of (valuesOf df)))) ((t2 : ℚ) : ℝ) :=
      hbLe_mono h1 (by exact_mod_cast h12)
    exact ⟨_, _, ftb_break { p with bic_threshold := t1 } df k _ hn' hbs h1,
      ftb_break { p with bic_threshold := t2 } df k _ hn' hbs h2, rfl, fun _ => rfl⟩
  · by_cases h2 : hbLe ((bicF (valuesOf df).length 4 (sseAt (valuesOf df) k)).sub
        (bicF (valuesOf df).length 2 (sse1Of (valuesOf df)))) ((t2 : ℚ) : ℝ)
    · refine ⟨_, _, ftb_nobreak { p with bic_threshold := t1 } df k _ hn' hbs h1,
        ftb_break { p with bic_threshold := t2 } df k _ hn' hbs h2, rfl, ?_⟩
      intro hcon
      simp at hcon
    · refine ⟨_, _, ftb_nobreak { p with bic_threshold := t1 } df k _ hn' hbs h1,
        ftb_nobreak { p with bic_threshold := t2 } df k _ hn' hbs h2, rfl, ?_⟩
      intro hcon
      simp at hcon

/-- Witness for C8: the 12-sample example with `min_segment = 5` and
thresholds `-10 <= -1`. -/
theorem c8_threshold_monotone_witness :
    (-10 : ℚ) ≤ -1 ∧ 2 * paramsM5.min_segment + 1 ≤ (valuesOf df12).length ∧
    (∃ r1 r2, find_trend_break { paramsM5 with bic_threshold := (-10 : ℚ) } df12 = .ok r1 ∧
      find_trend_break { paramsM5 with bic_threshold := (-1 : ℚ) } df12 = .ok r2 ∧
      r1.delta_bic = r2.delta_bic ∧
      (r1.has_break = true → r2 = r1)) :=
  ⟨by norm_num, by decide,
    c8_threshold_monotone paramsM5 df12 (-10) (-1) (by norm_num) (by decide)⟩

lemma idxPts_on_line (a b : ℚ) (y : List ℚ)
    (hlin : y = (List.range y.length).map (fun i : ℕ => a + b * (i : ℚ))) :
    ∀ q ∈ idxPts y, q.2 = a + b * q.1 := by
  intro q hq
  rw [idxPts] at hq
  rw [List.mem_map] at hq
  obtain ⟨i, hi, rfl⟩ := hq
  rw [List.mem_range] at hi
  show y.getD i 0 = a + b * (i : ℚ)
  conv_lhs => rw [hlin]
  rw [List.getD_eq_getElem?_getD, List.getElem?_map, List.getElem?_range hi]
  rfl

/-- C7: an exactly linear series (`value = a + b*t`, no noise) of sufficient
length yields `has_break = false` for any strictly negative threshold.  (On
this input both residuals are exactly `0`, both BIC values are `-inf`, the
difference is `nan`, and numpy's `nan <= threshold` is false.) -/
theorem c7_linear_no_break (p : BreakParams) (df : List (ℕ × Option ℚ)) (a b : ℚ)
    (hlin : valuesOf df = (List.range (valuesOf df).length).map (fun i : ℕ => a + b * (i : ℚ)))
    (hn : 2 * p.min_segment + 1 ≤ (valuesOf df).length)
    (_ht : p.bic_threshold < 0) :
    ∃ r, find_trend_break p df = .ok r ∧ r.has_break = false ∧
      r.delta_bic = FloatVal.nan := by
  have hn' : ¬ ((valuesOf df).length < 2 * p.min_segment + 1) := by omega
  have hpt := idxPts_on_line a b (valuesOf df) hlin
  have hs1 : sse1Of (valuesOf df) = 0 := linSSE_of_line a b _ hpt
  have hsk : ∀ k, sseAt (valuesOf df) k = 0 := by
    intro k
    rw [sseAt, linSSE_of_line a b _ (fun q hq => hpt q (List.mem_of_mem_take hq)),
      linSSE_of_line a b _ (fun q hq => hpt q (List.mem_of_mem_drop hq))]
    norm_num
  obtain ⟨k, hbs, _, _, _⟩ := bestSplit_spec (valuesOf df) p.min_segment (by omega)
  have hnan : (bicF (valuesOf df).length 4 (sseAt (valuesOf df) k)).sub
      (bicF (valuesOf df).length 2 (sse1Of (valuesOf df))) = FloatVal.nan := by
    rw [hsk k, hs1, bicF_zero, bicF_zero]
    rfl
  have hd : ¬ hbLe ((bicF (valuesOf df).length 4 (sseAt (valuesOf df) k)).sub
      (bicF (valuesOf df).length 2 (sse1Of (valuesOf df)))) ((p.bic_threshold : ℚ) : ℝ) := by
    rw [hnan]
    exact hbLe_nan _
  refine ⟨_, ftb_nobreak p df k _ hn' hbs hd, rfl, ?_⟩
  exact hnan

lemma df13lin_values :
    valuesOf df13lin
      = (List.range (valuesOf df13lin).length).map (fun i : ℕ => (1 : ℚ) + 2 * (i : ℚ)) := by
  have h1 : List.range (valuesOf df13lin).length = [0,1,2,3,4,5,6,7,8,9,10,11,12] := by decide
  have h2 : valuesOf df13lin = [1,3,5,7,9,11,13,15,17,19,21,23,25] := by decide
  rw [h1, h2]
  norm_num

/-- Witness for C7: the concrete linear series `value = 1 + 2*t` over 13
months, default parameters. -/
theorem c7_linear_no_break_witness :
    valuesOf df13lin
      = (List.range (valuesOf df13lin).length).map (fun i : ℕ => (1 : ℚ) + 2 * (i : ℚ)) ∧
    2 * defaultParams.min_segment + 1 ≤ (valuesOf df13lin).length ∧
    (defaultParams.bic_threshold : ℚ) < 0 ∧
    (∃ r, find_trend_break defaultParams df13lin = .ok r ∧ r.has_break = false ∧
      r.delta_bic = FloatVal.nan) :=
  ⟨df13lin_values, by decide, by decide,
    c7_linear_no_break defaultParams df13lin 1 2 df13lin_values (by decide) (by decide)⟩

lemma pairwise_getD_lt (x : List (ℕ × ℚ)) (hs : x.Pairwise (fun a b => a.1 < b.1))
    {i j : ℕ} (hij : i < j) (hj : j < x.length) :
    (x.getD i (0, 0)).1 < (x.getD j (0, 0)).1 := by
  have hi : i < x.length := lt_trans hij hj
  rw [List.getD_eq_getElem?_getD, List.getD_eq_getElem?_getD,
    List.getElem?_eq_getElem hi, List.getElem?_eq_getElem hj]
  exact List.pairwise_iff_get.mp hs ⟨i, hi⟩ ⟨j, hj⟩ hij

/-- C10: whenever a break is reported (with any parameters having
`min_segment >= 1`, which includes the defaults), the pre-representative
index is strictly below the break index and the post-representative index is
at least the break index; with strictly increasing timestamps this gives
`pre_representative_timestamp < break_timestamp <= post_representative_timestamp`. -/
theorem c10_representative_order (p : BreakParams) (df : List (ℕ × Option ℚ))
    (r : BreakResult)
    (hsort : (prepSeries df).Pairwise (fun a b => a.1 < b.1))
    (hm : 1 ≤ p.min_segment)
    (h : find_trend_break p df = .ok r) (hb : r.has_break = true) :
    ∃ k pi qi tb tp tq,
      bestSplit (valuesOf df) p.min_segment = some (k, sseAt (valuesOf df) k) ∧
      pi = preIdx (valuesOf df) (qmean ((valuesOf df).take k)) k p.pre_window ∧
      qi = postIdx (valuesOf df) (qmean ((valuesOf df).drop k)) (valuesOf df).length k
        p.post_window p.min_gap_post ∧
      pi < k ∧ k ≤ qi ∧
      r.break_date = some tb ∧ r.pre_image_date = some tp ∧ r.post_image_date = some tq ∧
      tp < tb ∧ tb ≤ tq := by
  obtain ⟨k, s, hn, hbs, hd, hr⟩ := ftb_break_inv p df r h hb
  have hlen : ¬ ((valuesOf df).length - 2 * p.min_segment = 0) := by omega
  obtain ⟨k', hbs', hmem, _, _⟩ := bestSplit_spec (valuesOf df) p.min_segment hlen
  rw [hbs] at hbs'
  obtain ⟨rfl, hs⟩ : k = k' ∧ s = sseAt (valuesOf df) k' := by
    have := Option.some.inj hbs'
    exact ⟨congrArg Prod.fst this, congrArg Prod.snd this⟩
  rw [List.mem_range'] at hmem
  obtain ⟨j0, hj0, hkval⟩ := hmem
  have hk1 : 1 ≤ k := by omega
  have hkn : k < (valuesOf df).length := by omega
  have hxlen : (prepSeries df).length = (valuesOf df).length := by
    rw [valuesOf, List.length_map]
  -- pre index
  have hpre := argminIdx_spec (fun i => |(valuesOf df).getD i 0 - qmean ((valuesOf df).take k)|)
    (preCands k p.pre_window) (preCands_ne k p.pre_window hk1) (preCands_pairwise k p.pre_window)
  have hpik : preIdx (valuesOf df) (qmean ((valuesOf df).take k)) k p.pre_window < k :=
    preCands_lt k p.pre_window _ hpre.1
  -- post index
  have hpost := argminIdx_spec
    (fun i => |(valuesOf df).getD i 0 - qmean ((valuesOf df).drop k)|)
    (postCands (valuesOf df).length k p.post_window p.min_gap_post)
    (postCands_ne _ _ _ _ hkn) (postCands_pairwise _ _ _ _)
  obtain ⟨hqik0, hqin0⟩ := postCands_bounds (valuesOf df).length k p.post_window p.min_gap_post hkn _ hpost.1
  have hqik : k ≤ postIdx (valuesOf df) (qmean ((valuesOf df).drop k)) (valuesOf df).length k
      p.post_window p.min_gap_post := hqik0
  have hqin : postIdx (valuesOf df) (qmean ((valuesOf df).drop k)) (valuesOf df).length k
      p.post_window p.min_gap_post < (valuesOf df).length := hqin0
  refine ⟨k, preIdx (valuesOf df) (qmean ((valuesOf df).take k)) k p.pre_window,
    postIdx (valuesOf df) (qmean ((valuesOf df).drop k)) (valuesOf df).length k
      p.post_window p.min_gap_post,
    ((prepSeries df).getD k (0, 0)).1,
    ((prepSeries df).getD
      (preIdx (valuesOf df) (qmean ((valuesOf df).take k)) k p.pre_window) (0, 0)).1,
    ((prepSeries df).getD
      (postIdx (valuesOf df) (qmean ((valuesOf df).drop k)) (valuesOf df).length k
        p.post_window p.min_gap_post) (0, 0)).1,
    hbs.trans (by rw [hs]), rfl, rfl, hpik, hqik, ?_, ?_, ?_, ?_, ?_⟩
  · rw [hr]
  · rw [hr]
  · rw [hr]
  · exact pairwise_getD_lt (prepSeries df) hsort hpik (by omega)
  · rcases eq_or_lt_of_le hqik with he | hlt
    · rw [← he]
    · exact le_of_lt (pairwise_getD_lt (prepSeries df) hsort hlt (by omega))

/-! ## Concrete evaluation of the 12-sample example (`min_segment = 5`) -/

lemma values_df12 : valuesOf df12 = y12 := by decide

lemma sseAt5_y12 : sseAt y12 5 = 24208 / 35 := by
  have ht : (idxPts y12).take 5 = [(0,5),(1,5),(2,6),(3,5),(4,6)] := by decide
  have hd : (idxPts y12).drop 5 = [(5,5),(6,40),(7,42),(8,41),(9,43),(10,40),(11,42)] := by decide
  rw [sseAt, ht, hd, linSSE_eq, linSSE_eq]
  norm_num

lemma sseAt6_y12 : sseAt y12 6 = 170 / 21 := by
  have ht : (idxPts y12).take 6 = [(0,5),(1,5),(2,6),(3,5),(4,6),(5,5)] := by decide
  have hd : (idxPts y12).drop 6 = [(6,40),(7,42),(8,41),(9,43),(10,40),(11,42)] := by decide
  rw [sseAt, ht, hd, linSSE_eq, linSSE_eq]
  norm_num

lemma sse1_y12 : sse1Of y12 = 396358 / 429 := by
  have h : idxPts y12 = [(0,5),(1,5),(2,6),(3,5),(4,6),(5,5),(6,40),(7,42),(8,41),(9,43),(10,40),(11,42)] := by decide
  rw [sse1Of, h, linSSE_eq]
  norm_num

lemma bestSplit_y12 : bestSplit y12 5 = some (6, 170 / 21) := by
  have hr : List.range' 5 (y12.length - 2 * 5) = [5, 6] := by decide
  rw [bestSplit, hr]
  simp only [List.foldl_cons, List.foldl_nil]
  rw [sseAt5_y12, sseAt6_y12, if_pos (by norm_num : (170:ℚ)/21 < 24208/35)]

lemma qmean_pre_y12 : qmean (y12.take 6) = 16 / 3 := by
  have h : y12.take 6 = [5,5,6,5,6,5] := by decide
  rw [h, qmean]
  norm_num

lemma qmean_post_y12 : qmean (y12.drop 6) = 124 / 3 := by
  have h : y12.drop 6 = [40,42,41,43,40,42] := by decide
  rw [h, qmean]
  norm_num

lemma preIdx_y12 : preIdx y12 (16 / 3) 6 6 = 0 := by
  have hc : preCands 6 6 = [0, 1, 2, 3, 4] := by decide
  rw [preIdx, hc]
  simp only [argminIdx, List.foldl_cons, List.foldl_nil]
  rw [if_neg (by rw [not_lt, ← sq_le_sq]; norm_num [y12] :
      ¬(|y12.getD 1 0 - (16:ℚ)/3| < |y12.getD 0 0 - (16:ℚ)/3|)),
    if_neg (by rw [not_lt, ← sq_le_sq]; norm_num [y12] :
      ¬(|y12.getD 2 0 - (16:ℚ)/3| < |y12.getD 0 0 - (16:ℚ)/3|)),
    if_neg (by rw [not_lt, ← sq_le_sq]; norm_num [y12] :
      ¬(|y12.getD 3 0 - (16:ℚ)/3| < |y12.getD 0 0 - (16:ℚ)/3|)),
    if_neg (by rw [not_lt, ← sq_le_sq]; norm_num [y12] :
      ¬(|y12.getD 4 0 - (16:ℚ)/3| < |y12.getD 0 0 - (16:ℚ)/3|))]

lemma postIdx_y12 : postIdx y12 (124 / 3) 12 6 12 1 = 8 := by
  have hc : postCands 12 6 12 1 = [7, 8, 9, 10, 11] := by decide
  rw [postIdx, hc]
  simp only [argminIdx, List.foldl_cons, List.foldl_nil]
  rw [if_pos (by rw [← sq_lt_sq]; norm_num [y12] :
      |y12.getD 8 0 - (124:ℚ)/3| < |y12.getD 7 0 - (124:ℚ)/3|),
    if_neg (by rw [not_lt, ← sq_le_sq]; norm_num [y12] :
      ¬(|y12.getD 9 0 - (124:ℚ)/3| < |y12.getD 8 0 - (124:ℚ)/3|)),
    if_neg (by rw [not_lt, ← sq_le_sq]; norm_num [y12] :
      ¬(|y12.getD 10 0 - (124:ℚ)/3| < |y12.getD 8 0 - (124:ℚ)/3|)),
    if_neg (by rw [not_lt, ← sq_le_sq]; norm_num [y12] :
      ¬(|y12.getD 11 0 - (124:ℚ)/3| < |y12.getD 8 0 - (124:ℚ)/3|))]

lemma hbLe_delta_y12 :
    hbLe ((bicF 12 4 (170 / 21)).sub (bicF 12 2 (396358 / 429))) (((-10 : ℚ)) : ℝ) := by
  obtain ⟨d, hd, hle⟩ := @delta_le_of_ratio 12 (170 / 21) (396358 / 429)
    (by norm_num) (by norm_num) (by norm_num)
  rw [hd]
  show d ≤ ((-10 : ℚ) : ℝ)
  push_cast
  norm_num at hle ⊢
  linarith

lemma ftb_df12 : find_trend_break paramsM5 df12 = .ok
    { has_break := true,
      delta_bic := (bicF 12 4 (170 / 21)).sub (bicF 12 2 (396358 / 429)),
      break_date := some 6, pre_image_date := some 0, post_image_date := some 8,
      pre_mean := some (16 / 3), post_mean := some (124 / 3) } := by
  have hn : ¬ ((valuesOf df12).length < 2 * paramsM5.min_segment + 1) := by decide
  have hbs : bestSplit (valuesOf df12) paramsM5.min_segment = some (6, 170 / 21) := by
    rw [values_df12]
    exact bestSplit_y12
  have hd : hbLe ((bicF (valuesOf df12).length 4 (170 / 21)).sub
      (bicF (valuesOf df12).length 2 (sse1Of (valuesOf df12))))
      ((paramsM5.bic_threshold : ℚ) : ℝ) := by
    rw [values_df12, sse1_y12]
    exact hbLe_delta_y12
  rw [ftb_break paramsM5 df12 6 (170 / 21) hn hbs hd, Except.ok.injEq, BreakResult.mk.injEq]
  refine ⟨rfl, ?_, ?_, ?_, ?_, ?_, ?_⟩
  · rw [values_df12, sse1_y12]
    rfl
  · decide
  · rw [values_df12, qmean_pre_y12]
    rw [show preIdx y12 (16 / 3) 6 paramsM5.pre_window = 0 from preIdx_y12]
    decide
  · rw [values_df12, qmean_post_y12]
    rw [show postIdx y12 (124 / 3) y12.length 6 paramsM5.post_window paramsM5.min_gap_post = 8
      from postIdx_y12]
    decide
  · rw [values_df12, qmean_pre_y12]
  · rw [values_df12, qmean_post_y12]

/-- C2 counterexample: the spec's end-to-end example — the 12-sample series
with `min_segment_size = 6` — violates the detector's own length
precondition (`2*6+1 = 13` rows needed), so `find_trend_break` raises the
insufficient-data error instead of returning a break result. -/
theorem c2_example_counterexample :
    find_trend_break defaultParams df12 = .error .insufficientData :=
  ftb_err defaultParams df12 (by decide)

/-- C2 amended: on the same 12 samples with `min_segment_size = 5` (the
largest value meeting the precondition), the detector returns
`has_break = true`, break index `k* = 6` (timestamp 6), exact
`pre_mean = 16/3 ≈ 5.33` and `post_mean = 124/3 ≈ 41.3`, and a finite
`delta_criterion` below `-10`. -/
theorem c2_example_amended :
    ∃ r, find_trend_break paramsM5 df12 = .ok r ∧ r.has_break = true ∧
      r.break_date = some 6 ∧ r.pre_mean = some (16 / 3) ∧ r.post_mean = some (124 / 3) ∧
      ∃ d : ℝ, r.delta_bic = .fin d ∧ d < -10 := by
  obtain ⟨d, hd, hle⟩ := @delta_le_of_ratio 12 (170 / 21) (396358 / 429)
    (by norm_num) (by norm_num) (by norm_num)
  refine ⟨_, ftb_df12, rfl, rfl, rfl, rfl, d, hd, ?_⟩
  norm_num at hle
  linarith

lemma preCands_mem_window {k pw : ℕ} (hw : k - pw - 1 < k - 1) :
    ∀ j, j ∈ preCands k pw ↔ (k - pw - 1 ≤ j ∧ j < k - 1) := by
  intro j
  rw [preCands]
  have hmax : max (k - pw - 1) (k - 1) = k - 1 := by omega
  rw [hmax, if_pos hw, List.mem_range']
  constructor
  · rintro ⟨i, hi, rfl⟩
    omega
  · intro hj
    exact ⟨j - (k - pw - 1), by omega, by omega⟩

lemma preCands_mem_fallback {k pw : ℕ} (hw : ¬ (k - pw - 1 < k - 1)) :
    ∀ j, j ∈ preCands k pw ↔ j < k := by
  intro j
  rw [preCands]
  have hmax : max (k - pw - 1) (k - 1) = k - pw - 1 := by omega
  rw [hmax, if_neg (lt_irrefl _), List.mem_range]

/-- C4: when a break is reported at `k*` (any parameters with
`min_segment >= 1`), the pre-representative index is taken from the window
`[max(0, k*-pre_window-1), k*-1)` — excluding the sample immediately before
the break — as the index of the value closest to `pre_mean` (the mean over
`[0, k*)`), ties to the lowest index; when that window is empty the search
falls back to all of `[0, k*)`, and in every case the chosen index is below
`k*`, so no out-of-range access occurs.  (ℕ-subtraction renders the
`max(0,·)`.) -/
theorem c4_pre_representative (p : BreakParams) (df : List (ℕ × Option ℚ))
    (r : BreakResult) (hm : 1 ≤ p.min_segment)
    (h : find_trend_break p df = .ok r) (hb : r.has_break = true) :
    ∃ k s i0, bestSplit (valuesOf df) p.min_segment = some (k, s) ∧
      i0 = preIdx (valuesOf df) (qmean ((valuesOf df).take k)) k p.pre_window ∧
      r.pre_image_date = some (((prepSeries df).getD i0 (0, 0)).1) ∧
      r.pre_mean = some (qmean ((valuesOf df).take k)) ∧
      i0 < k ∧
      ((k - p.pre_window - 1 < k - 1) →
        (k - p.pre_window - 1 ≤ i0 ∧ i0 < k - 1) ∧
        (∀ j, k - p.pre_window - 1 ≤ j → j < k - 1 →
          |(valuesOf df).getD i0 0 - qmean ((valuesOf df).take k)|
            ≤ |(valuesOf df).getD j 0 - qmean ((valuesOf df).take k)|) ∧
        (∀ j, k - p.pre_window - 1 ≤ j → j < k - 1 →
          |(valuesOf df).getD j 0 - qmean ((valuesOf df).take k)|
            ≤ |(valuesOf df).getD i0 0 - qmean ((valuesOf df).take k)| → i0 ≤ j)) ∧
      (¬ (k - p.pre_window - 1 < k - 1) →
        (∀ j, j < k →
          |(valuesOf df).getD i0 0 - qmean ((valuesOf df).take k)|
            ≤ |(valuesOf df).getD j 0 - qmean ((valuesOf df).take k)|) ∧
        (∀ j, j < k →
          |(valuesOf df).getD j 0 - qmean ((valuesOf df).take k)|
            ≤ |(valuesOf df).getD i0 0 - qmean ((valuesOf df).take k)| → i0 ≤ j)) := by
  obtain ⟨k, s, hn, hbs, hd, hr⟩ := ftb_break_inv p df r h hb
  obtain ⟨k', hbs', hmem, _, _⟩ := bestSplit_spec (valuesOf df) p.min_segment (by omega)
  rw [hbs] at hbs'
  have hkk : k = k' := congrArg Prod.fst (Option.some.inj hbs')
  subst hkk
  rw [List.mem_range'] at hmem
  obtain ⟨j0, hj0, hkval⟩ := hmem
  have hk1 : 1 ≤ k := by omega
  obtain ⟨ham, hmin, hties⟩ := argminIdx_spec
    (fun i => |(valuesOf df).getD i 0 - qmean ((valuesOf df).take k)|)
    (preCands k p.pre_window) (preCands_ne k p.pre_window hk1)
    (preCands_pairwise k p.pre_window)
  refine ⟨k, s, _, hbs, rfl, by rw [hr], by rw [hr], preCands_lt _ _ _ ham, ?_, ?_⟩
  · intro hw
    refine ⟨(preCands_mem_window hw _).mp ham, ?_, ?_⟩
    · intro j h1 h2
      exact hmin j ((preCands_mem_window hw j).mpr ⟨h1, h2⟩)
    · intro j h1 h2 h3
      exact hties j ((preCands_mem_window hw j).mpr ⟨h1, h2⟩) h3
  · intro hw
    refine ⟨?_, ?_⟩
    · intro j h1
      exact hmin j ((preCands_mem_fallback hw j).mpr h1)
    · intro j h1 h3
      exact hties j ((preCands_mem_fallback hw j).mpr h1) h3

/-- Witness for C4: the 12-sample example with `min_segment = 5`. -/
theorem c4_pre_representative_witness :
    1 ≤ paramsM5.min_segment ∧
    ∃ r, find_trend_break paramsM5 df12 = .ok r ∧ r.has_break = true ∧
      (∃ k s i0, bestSplit (valuesOf df12) paramsM5.min_segment = some (k, s) ∧
        i0 = preIdx (valuesOf df12) (qmean ((valuesOf df12).take k)) k paramsM5.pre_window ∧
        r.pre_image_date = some (((prepSeries df12).getD i0 (0, 0)).1) ∧
        r.pre_mean = some (qmean ((valuesOf df12).take k)) ∧
        i0 < k ∧
        ((k - paramsM5.pre_window - 1 < k - 1) →
          (k - paramsM5.pre_window - 1 ≤ i0 ∧ i0 < k - 1) ∧
          (∀ j, k - paramsM5.pre_window - 1 ≤ j → j < k - 1 →
            |(valuesOf df12).getD i0 0 - qmean ((valuesOf df12).take k)|
              ≤ |(valuesOf df12).getD j 0 - qmean ((valuesOf df12).take k)|) ∧
          (∀ j, k - paramsM5.pre_window - 1 ≤ j → j < k - 1 →
            |(valuesOf df12).getD j 0 - qmean ((valuesOf df12).take k)|
              ≤ |(valuesOf df12).getD i0 0 - qmean ((valuesOf df12).take k)| → i0 ≤ j)) ∧
        (¬ (k - paramsM5.pre_window - 1 < k - 1) →
          (∀ j, j < k →
            |(valuesOf df12).getD i0 0 - qmean ((valuesOf df12).take k)|
              ≤ |(valuesOf df12).getD j 0 - qmean ((valuesOf df12).take k)|) ∧
          (∀ j, j < k →
            |(valuesOf df12).getD j 0 - qmean ((valuesOf df12).take k)|
              ≤ |(valuesOf df12).getD i0 0 - qmean ((valuesOf df12).take k)| → i0 ≤ j))) :=
  ⟨by decide, _, ftb_df12, rfl,
    c4_pre_representative paramsM5 df12 _ (by decide) ftb_df12 rfl⟩

/-! ## Concrete evaluation of the modified example `df12b` (post gap 0) -/

lemma values_df12b : valuesOf df12b = y12b := by decide

lemma sseAt5_y12b : sseAt y12b 5 = 24763 / 35 := by
  have ht : (idxPts y12b).take 5 = [(0,5),(1,5),(2,6),(3,5),(4,6)] := by decide
  have hd : (idxPts y12b).drop 5 = [(5,5),(6,41),(7,42),(8,40),(9,43),(10,40),(11,42)] := by decide
  rw [sseAt, ht, hd, linSSE_eq, linSSE_eq]
  norm_num

lemma sseAt6_y12b : sseAt y12b 6 = 898 / 105 := by
  have ht : (idxPts y12b).take 6 = [(0,5),(1,5),(2,6),(3,5),(4,6),(5,5)] := by decide
  have hd : (idxPts y12b).drop 6 = [(6,41),(7,42),(8,40),(9,43),(10,40),(11,42)] := by decide
  rw [sseAt, ht, hd, linSSE_eq, linSSE_eq]
  norm_num

lemma sse1_y12b : sse1Of y12b = 404170 / 429 := by
  have h : idxPts y12b = [(0,5),(1,5),(2,6),(3,5),(4,6),(5,5),(6,41),(7,42),(8,40),(9,43),(10,40),(11,42)] := by decide
  rw [sse1Of, h, linSSE_eq]
  norm_num

lemma bestSplit_y12b : bestSplit y12b 5 = some (6, 898 / 105) := by
  have hr : List.range' 5 (y12b.length - 2 * 5) = [5, 6] := by decide
  rw [bestSplit, hr]
  simp only [List.foldl_cons, List.foldl_nil]
  rw [sseAt5_y12b, sseAt6_y12b, if_pos (by norm_num : (898:ℚ)/105 < 24763/35)]

lemma qmean_pre_y12b : qmean (y12b.take 6) = 16 / 3 := by
  have h : y12b.take 6 = [5,5,6,5,6,5] := by decide
  rw [h, qmean]
  norm_num

lemma qmean_post_y12b : qmean (y12b.drop 6) = 124 / 3 := by
  have h : y12b.drop 6 = [41,42,40,43,40,42] := by decide
  rw [h, qmean]
  norm_num

lemma preIdx_y12b : preIdx y12b (16 / 3) 6 6 = 0 := by
  have hc : preCands 6 6 = [0, 1, 2, 3, 4] := by decide
  rw [preIdx, hc]
  simp only [argminIdx, List.foldl_cons, List.foldl_nil]
  rw [if_neg (by rw [not_lt, ← sq_le_sq]; norm_num [y12b] :
      ¬(|y12b.getD 1 0 - (16:ℚ)/3| < |y12b.getD 0 0 - (16:ℚ)/3|)),
    if_neg (by rw [not_lt, ← sq_le_sq]; norm_num [y12b] :
      ¬(|y12b.getD 2 0 - (16:ℚ)/3| < |y12b.getD 0 0 - (16:ℚ)/3|)),
    if_neg (by rw [not_lt, ← sq_le_sq]; norm_num [y12b] :
      ¬(|y12b.getD 3 0 - (16:ℚ)/3| < |y12b.getD 0 0 - (16:ℚ)/3|)),
    if_neg (by rw [not_lt, ← sq_le_sq]; norm_num [y12b] :
      ¬(|y12b.getD 4 0 - (16:ℚ)/3| < |y12b.getD 0 0 - (16:ℚ)/3|))]

lemma postIdx_y12b : postIdx y12b (124 / 3) 12 6 12 0 = 7 := by
  have hc : postCands 12 6 12 0 = [7, 8, 9, 10, 11] := by decide
  rw [postIdx, hc]
  simp only [argminIdx, List.foldl_cons, List.foldl_nil]
  rw [if_neg (by rw [not_lt, ← sq_le_sq]; norm_num [y12b] :
      ¬(|y12b.getD 8 0 - (124:ℚ)/3| < |y12b.getD 7 0 - (124:ℚ)/3|)),
    if_neg (by rw [not_lt, ← sq_le_sq]; norm_num [y12b] :
      ¬(|y12b.getD 9 0 - (124:ℚ)/3| < |y12b.getD 7 0 - (124:ℚ)/3|)),
    if_neg (by rw [not_lt, ← sq_le_sq]; norm_num [y12b] :
      ¬(|y12b.getD 10 0 - (124:ℚ)/3| < |y12b.getD 7 0 - (124:ℚ)/3|)),
    if_neg (by rw [not_lt, ← sq_le_sq]; norm_num [y12b] :
      ¬(|y12b.getD 11 0 - (124:ℚ)/3| < |y12b.getD 7 0 - (124:ℚ)/3|))]

lemma specPostIdx_y12b : specPostIdx y12b (124 / 3) 12 6 12 0 = 6 := by
  have hc : (if min (6 + 0) (12 - 1) ≤ min (6 + 12) (12 - 1) then
      List.range' (min (6 + 0) (12 - 1)) (min (6 + 12) (12 - 1) + 1 - min (6 + 0) (12 - 1))
      else List.range' 6 (12 - 6)) = [6, 7, 8, 9, 10, 11] := by decide
  rw [specPostIdx]
  simp only at hc ⊢
  rw [hc]
  simp only [argminIdx, List.foldl_cons, List.foldl_nil]
  rw [if_neg (by rw [not_lt, ← sq_le_sq]; norm_num [y12b] :
      ¬(|y12b.getD 7 0 - (124:ℚ)/3| < |y12b.getD 6 0 - (124:ℚ)/3|)),
    if_neg (by rw [not_lt, ← sq_le_sq]; norm_num [y12b] :
      ¬(|y12b.getD 8 0 - (124:ℚ)/3| < |y12b.getD 6 0 - (124:ℚ)/3|)),
    if_neg (by rw [not_lt, ← sq_le_sq]; norm_num [y12b] :
      ¬(|y12b.getD 9 0 - (124:ℚ)/3| < |y12b.getD 6 0 - (124:ℚ)/3|)),
    if_neg (by rw [not_lt, ← sq_le_sq]; norm_num [y12b] :
      ¬(|y12b.getD 10 0 - (124:ℚ)/3| < |y12b.getD 6 0 - (124:ℚ)/3|)),
    if_neg (by rw [not_lt, ← sq_le_sq]; norm_num [y12b] :
      ¬(|y12b.getD 11 0 - (124:ℚ)/3| < |y12b.getD 6 0 - (124:ℚ)/3|))]

lemma hbLe_delta_y12b :
    hbLe ((bicF 12 4 (898 / 105)).sub (bicF 12 2 (404170 / 429))) (((-10 : ℚ)) : ℝ) := by
  obtain ⟨d, hd, hle⟩ := @delta_le_of_ratio 12 (898 / 105) (404170 / 429)
    (by norm_num) (by norm_num) (by norm_num)
  rw [hd]
  show d ≤ ((-10 : ℚ) : ℝ)
  push_cast
  norm_num at hle ⊢
  linarith

lemma ftb_df12b : find_trend_break { paramsM5 with min_gap_post := 0 } df12b = .ok
    { has_break := true,
      delta_bic := (bicF 12 4 (898 / 105)).sub (bicF 12 2 (404170 / 429)),
      break_date := some 6, pre_image_date := some 0, post_image_date := some 7,
      pre_mean := some (16 / 3), post_mean := some (124 / 3) } := by
  have hn : ¬ ((valuesOf df12b).length <
      2 * ({ paramsM5 with min_gap_post := 0 } : BreakParams).min_segment + 1) := by decide
  have hbs : bestSplit (valuesOf df12b)
      ({ paramsM5 with min_gap_post := 0 } : BreakParams).min_segment = some (6, 898 / 105) := by
    rw [values_df12b]
    exact bestSplit_y12b
  have hd : hbLe ((bicF (valuesOf df12b).length 4 (898 / 105)).sub
      (bicF (valuesOf df12b).length 2 (sse1Of (valuesOf df12b))))
      ((({ paramsM5 with min_gap_post := 0 } : BreakParams).bic_threshold : ℚ) : ℝ) := by
    rw [values_df12b, sse1_y12b]
    exact hbLe_delta_y12b
  rw [ftb_break _ df12b 6 (898 / 105) hn hbs hd, Except.ok.injEq, BreakResult.mk.injEq]
  refine ⟨rfl, ?_, ?_, ?_, ?_, ?_, ?_⟩
  · rw [values_df12b, sse1_y12b]
    rfl
  · decide
  · rw [values_df12b, qmean_pre_y12b]
    rw [show preIdx y12b (16 / 3) 6 ({ paramsM5 with min_gap_post := 0 } : BreakParams).pre_window = 0
      from preIdx_y12b]
    decide
  · rw [values_df12b, qmean_post_y12b]
    rw [show postIdx y12b (124 / 3) y12b.length 6
        ({ paramsM5 with min_gap_post := 0 } : BreakParams).post_window
        ({ paramsM5 with min_gap_post := 0 } : BreakParams).min_gap_post = 7
      from postIdx_y12b]
    decide
  · rw [values_df12b, qmean_pre_y12b]
  · rw [values_df12b, qmean_post_y12b]

/-- C5 counterexample: with `post_gap = 0` the code does not search the
claimed window `[min(k*+post_gap, n-1), min(k*+post_window, n-1)] = [6, 11]`
(whose closest-to-post-mean index is `6`, the break sample itself): it clamps
the gap to `max(1, post_gap) = 1` and returns index `7` instead. -/
theorem c5_post_gap_counterexample :
    (∃ r, find_trend_break { paramsM5 with min_gap_post := 0 } df12b = .ok r ∧
      r.has_break = true ∧ r.post_image_date = some 7) ∧
    specPostIdx y12b (124 / 3) 12 6 12 0 = 6 ∧
    ((7 : ℕ) = 6 → False) :=
  ⟨⟨_, ftb_df12b, rfl, rfl⟩, specPostIdx_y12b, by decide⟩

lemma postCands_mem_window {n k pwin gap : ℕ}
    (hw : min (k + max 1 gap) (n - 1) ≤ min (k + pwin) (n - 1)) :
    ∀ j, j ∈ postCands n k pwin gap ↔
      (min (k + max 1 gap) (n - 1) ≤ j ∧ j ≤ min (k + pwin) (n - 1)) := by
  intro j
  rw [postCands]
  rw [if_pos hw, List.mem_range']
  constructor
  · rintro ⟨i, hi, rfl⟩
    omega
  · intro hj
    exact ⟨j - min (k + max 1 gap) (n - 1), by omega, by omega⟩

lemma postCands_mem_fallback {n k pwin gap : ℕ}
    (hw : ¬ (min (k + max 1 gap) (n - 1) ≤ min (k + pwin) (n - 1))) :
    ∀ j, j ∈ postCands n k pwin gap ↔ (k ≤ j ∧ j < n) := by
  intro j
  rw [postCands]
  rw [if_neg hw, List.mem_range']
  constructor
  · rintro ⟨i, hi, rfl⟩
    omega
  · intro hj
    refine ⟨j - k, by omega, by omega⟩

/-- C5 amended: when a break is reported at `k*`, the post-representative
index is the closest-to-`post_mean` index (ties to the lowest index) in the
closed window `[min(k* + max(1, post_gap), n-1), min(k* + post_window, n-1)]`
— the gap is clamped below by 1, so `post_gap = 0` behaves like `1` — with
fallback to `[k*, n)` when that window is empty. -/
theorem c5_post_representative (p : BreakParams) (df : List (ℕ × Option ℚ))
    (r : BreakResult)
    (h : find_trend_break p df = .ok r) (hb : r.has_break = true) :
    ∃ k s i0, bestSplit (valuesOf df) p.min_segment = some (k, s) ∧
      i0 = postIdx (valuesOf df) (qmean ((valuesOf df).drop k)) (valuesOf df).length k
        p.post_window p.min_gap_post ∧
      r.post_image_date = some (((prepSeries df).getD i0 (0, 0)).1) ∧
      r.post_mean = some (qmean ((valuesOf df).drop k)) ∧
      ((min (k + max 1 p.min_gap_post) ((valuesOf df).length - 1)
          ≤ min (k + p.post_window) ((valuesOf df).length - 1)) →
        (min (k + max 1 p.min_gap_post) ((valuesOf df).length - 1) ≤ i0 ∧
          i0 ≤ min (k + p.post_window) ((valuesOf df).length - 1)) ∧
        (∀ j, min (k + max 1 p.min_gap_post) ((valuesOf df).length - 1) ≤ j →
          j ≤ min (k + p.post_window) ((valuesOf df).length - 1) →
          |(valuesOf df).getD i0 0 - qmean ((valuesOf df).drop k)|
            ≤ |(valuesOf df).getD j 0 - qmean ((valuesOf df).drop k)|) ∧
        (∀ j, min (k + max 1 p.min_gap_post) ((valuesOf df).length - 1) ≤ j →
          j ≤ min (k + p.post_window) ((valuesOf df).length - 1) →
          |(valuesOf df).getD j 0 - qmean ((valuesOf df).drop k)|
            ≤ |(valuesOf df).getD i0 0 - qmean ((valuesOf df).drop k)| → i0 ≤ j)) ∧
      (¬ (min (k + max 1 p.min_gap_post) ((valuesOf df).length - 1)
          ≤ min (k + p.post_window) ((valuesOf df).length - 1)) →
        (k ≤ i0 ∧ i0 < (valuesOf df).length) ∧
        (∀ j, k ≤ j → j < (valuesOf df).length →
          |(valuesOf df).getD i0 0 - qmean ((valuesOf df).drop k)|
            ≤ |(valuesOf df).getD j 0 - qmean ((valuesOf df).drop k)|) ∧
        (∀ j, k ≤ j → j < (valuesOf df).length →
          |(valuesOf df).getD j 0 - qmean ((valuesOf df).drop k)|
            ≤ |(valuesOf df).getD i0 0 - qmean ((valuesOf df).drop k)| → i0 ≤ j)) := by
  obtain ⟨k, s, hn, hbs, hd, hr⟩ := ftb_break_inv p df r h hb
  obtain ⟨k', hbs', hmem, _, _⟩ := bestSplit_spec (valuesOf df) p.min_segment (by omega)
  rw [hbs] at hbs'
  have hkk : k = k' := congrArg Prod.fst (Option.some.inj hbs')
  subst hkk
  rw [List.mem_range'] at hmem
  obtain ⟨j0, hj0, hkval⟩ := hmem
  have hkn : k < (valuesOf df).length := by omega
  obtain ⟨ham, hmin, hties⟩ := argminIdx_spec
    (fun i => |(valuesOf df).getD i 0 - qmean ((valuesOf df).drop k)|)
    (postCands (valuesOf df).length k p.post_window p.min_gap_post)
    (postCands_ne _ _ _ _ hkn) (postCands_pairwise _ _ _ _)
  refine ⟨k, s, _, hbs, rfl, by rw [hr], by rw [hr], ?_, ?_⟩
  · intro hw
    refine ⟨(postCands_mem_window hw _).mp ham, ?_, ?_⟩
    · intro j h1 h2
      exact hmin j ((postCands_mem_window hw j).mpr ⟨h1, h2⟩)
    · intro j h1 h2 h3
      exact hties j ((postCands_mem_window hw j).mpr ⟨h1, h2⟩) h3
  · intro hw
    refine ⟨(postCands_mem_fallback hw _).mp ham, ?_, ?_⟩
    · intro j h1 h2
      exact hmin j ((postCands_mem_fallback hw j).mpr ⟨h1, h2⟩)
    · intro j h1 h2 h3
      exact hties j ((postCands_mem_fallback hw j).mpr ⟨h1, h2⟩) h3

/-- Witness for the amended C5 at the 12-sample example (`min_segment = 5`,
default `post_gap = 1`). -/
theorem c5_post_representative_witness :
    ∃ r, find_trend_break paramsM5 df12 = .ok r ∧ r.has_break = true ∧
      (∃ k s i0, bestSplit (valuesOf df12) paramsM5.min_segment = some (k, s) ∧
        i0 = postIdx (valuesOf df12) (qmean ((valuesOf df12).drop k)) (valuesOf df12).length k
          paramsM5.post_window paramsM5.min_gap_post ∧
        r.post_image_date = some (((prepSeries df12).getD i0 (0, 0)).1) ∧
        r.post_mean = some (qmean ((valuesOf df12).drop k)) ∧
        ((min (k + max 1 paramsM5.min_gap_post) ((valuesOf df12).length - 1)
            ≤ min (k + paramsM5.post_window) ((valuesOf df12).length - 1)) →
          (min (k + max 1 paramsM5.min_gap_post) ((valuesOf df12).length - 1) ≤ i0 ∧
            i0 ≤ min (k + paramsM5.post_window) ((valuesOf df12).length - 1)) ∧
          (∀ j, min (k + max 1 paramsM5.min_gap_post) ((valuesOf df12).length - 1) ≤ j →
            j ≤ min (k + paramsM5.post_window) ((valuesOf df12).length - 1) →
            |(valuesOf df12).getD i0 0 - qmean ((valuesOf df12).drop k)|
              ≤ |(valuesOf df12).getD j 0 - qmean ((valuesOf df12).drop k)|) ∧
          (∀ j, min (k + max 1 paramsM5.min_gap_post) ((valuesOf df12).length - 1) ≤ j →
            j ≤ min (k + paramsM5.post_window) ((valuesOf df12).length - 1) →
            |(valuesOf df12).getD j 0 - qmean ((valuesOf df12).drop k)|
              ≤ |(valuesOf df12).getD i0 0 - qmean ((valuesOf df12).drop k)| → i0 ≤ j)) ∧
        (¬ (min (k + max 1 paramsM5.min_gap_post) ((valuesOf df12).length - 1)
            ≤ min (k + paramsM5.post_window) ((valuesOf df12).length - 1)) →
          (k ≤ i0 ∧ i0 < (valuesOf df12).length) ∧
          (∀ j, k ≤ j → j < (valuesOf df12).length →
            |(valuesOf df12).getD i0 0 - qmean ((valuesOf df12).drop k)|
              ≤ |(valuesOf df12).getD j 0 - qmean ((valuesOf df12).drop k)|) ∧
          (∀ j, k ≤ j → j < (valuesOf df12).length →
            |(valuesOf df12).getD j 0 - qmean ((valuesOf df12).drop k)|
              ≤ |(valuesOf df12).getD i0 0 - qmean ((valuesOf df12).drop k)| → i0 ≤ j))) :=
  ⟨_, ftb_df12, rfl, c5_post_representative paramsM5 df12 _ ftb_df12 rfl⟩

/-! ## Zero-residual behaviour (C6) and alternating example (C9) -/

/-- C6 counterexample: on the exactly linear 13-sample series (which meets
the length precondition and has `SSE1 = 0`), `log(SSE/n)` inside the BIC is
`-inf`, not a finite sentinel value, and the returned result carries
`delta_bic = nan` — so the result is not free of NaN values. -/
theorem c6_sentinel_counterexample :
    sse1Of (valuesOf df13lin) = 0 ∧
    bicF (valuesOf df13lin).length 2 (sse1Of (valuesOf df13lin)) = FloatVal.neginf ∧
    (∀ v : ℝ, bicF (valuesOf df13lin).length 2 (sse1Of (valuesOf df13lin)) ≠ FloatVal.fin v) ∧
    (∃ r, find_trend_break defaultParams df13lin = .ok r ∧ r.delta_bic = FloatVal.nan) := by
  have hpt := idxPts_on_line 1 2 (valuesOf df13lin) df13lin_values
  have hs1 : sse1Of (valuesOf df13lin) = 0 := linSSE_of_line 1 2 _ hpt
  have hsk : ∀ k, sseAt (valuesOf df13lin) k = 0 := by
    intro k
    rw [sseAt, linSSE_of_line 1 2 _ (fun q hq => hpt q (List.mem_of_mem_take hq)),
      linSSE_of_line 1 2 _ (fun q hq => hpt q (List.mem_of_mem_drop hq))]
    norm_num
  have hn' : ¬ ((valuesOf df13lin).length < 2 * defaultParams.min_segment + 1) := by decide
  obtain ⟨k, hbs, _, _, _⟩ := bestSplit_spec (valuesOf df13lin) defaultParams.min_segment
    (by decide)
  have hnan : (bicF (valuesOf df13lin).length 4 (sseAt (valuesOf df13lin) k)).sub
      (bicF (valuesOf df13lin).length 2 (sse1Of (valuesOf df13lin))) = FloatVal.nan := by
    rw [hsk k, hs1, bicF_zero, bicF_zero]
    rfl
  have hd : ¬ hbLe ((bicF (valuesOf df13lin).length 4 (sseAt (valuesOf df13lin) k)).sub
      (bicF (valuesOf df13lin).length 2 (sse1Of (valuesOf df13lin))))
      ((defaultParams.bic_threshold : ℚ) : ℝ) := by
    rw [hnan]
    exact hbLe_nan _
  refine ⟨hs1, by rw [hs1, bicF_zero], ?_, ⟨_, ftb_nobreak defaultParams df13lin k _ hn' hbs hd, hnan⟩⟩
  intro v
  rw [hs1, bicF_zero]
  exact fun hcon => FloatVal.noConfusion hcon

/-- C6 amended: the embedding of `np.log` at `SSE = 0` is `-inf` (total — no
exception is raised), not a finite sentinel.  When only the two-segment
residual is zero the BIC difference is `-inf` and every threshold accepts it;
when `SSE1` is zero as well the difference is `inf - inf = nan`, which no
threshold accepts; and under the length precondition the detector always
returns a result. -/
theorem c6_log_zero_amended (m q : ℕ) (s1 : ℚ) (hs1 : 0 < s1) (t : ℝ)
    (p : BreakParams) (df : List (ℕ × Option ℚ))
    (hn : 2 * p.min_segment + 1 ≤ (valuesOf df).length) :
    bicF m q 0 = FloatVal.neginf ∧
    (bicF m 4 (0 : ℚ)).sub (bicF m 2 s1) = FloatVal.neginf ∧
    hbLe ((bicF m 4 (0 : ℚ)).sub (bicF m 2 s1)) t ∧
    (bicF m 4 (0 : ℚ)).sub (bicF m 2 (0 : ℚ)) = FloatVal.nan ∧
    ¬ hbLe ((bicF m 4 (0 : ℚ)).sub (bicF m 2 (0 : ℚ))) t ∧
    (∃ r, find_trend_break p df = .ok r) := by
  have h1 : (bicF m 4 (0 : ℚ)).sub (bicF m 2 s1) = FloatVal.neginf := by
    rw [bicF_zero, bicF_fin_of_pos hs1]
    rfl
  have h2 : (bicF m 4 (0 : ℚ)).sub (bicF m 2 (0 : ℚ)) = FloatVal.nan := by
    rw [bicF_zero, bicF_zero]
    rfl
  refine ⟨bicF_zero m q, h1, by rw [h1]; trivial, h2, by rw [h2]; exact hbLe_nan t, ?_⟩
  have hn' : ¬ ((valuesOf df).length < 2 * p.min_segment + 1) := by omega
  obtain ⟨k, hbs, _, _, _⟩ := bestSplit_spec (valuesOf df) p.min_segment (by omega)
  by_cases hd : hbLe ((bicF (valuesOf df).length 4 (sseAt (valuesOf df) k)).sub
      (bicF (valuesOf df).length 2 (sse1Of (valuesOf df)))) ((p.bic_threshold : ℚ) : ℝ)
  · exact ⟨_, ftb_break p df k _ hn' hbs hd⟩
  · exact ⟨_, ftb_nobreak p df k _ hn' hbs hd⟩

/-- Witness for the amended C6. -/
theorem c6_log_zero_amended_witness :
    (0 : ℚ) < 1 ∧ 2 * defaultParams.min_segment + 1 ≤ (valuesOf df13).length ∧
    (bicF 13 2 0 = FloatVal.neginf ∧
      (bicF 13 4 (0 : ℚ)).sub (bicF 13 2 (1 : ℚ)) = FloatVal.neginf ∧
      hbLe ((bicF 13 4 (0 : ℚ)).sub (bicF 13 2 (1 : ℚ))) (-10 : ℝ) ∧
      (bicF 13 4 (0 : ℚ)).sub (bicF 13 2 (0 : ℚ)) = FloatVal.nan ∧
      ¬ hbLe ((bicF 13 4 (0 : ℚ)).sub (bicF 13 2 (0 : ℚ))) (-10 : ℝ) ∧
      (∃ r, find_trend_break defaultParams df13 = .ok r)) :=
  ⟨by norm_num, by decide,
    c6_log_zero_amended 13 2 1 (by norm_num) (-10) defaultParams df13 (by decide)⟩

/-- C9: when the BIC difference is finite and exceeds the threshold, the
result has `has_break = false`, a populated `delta_criterion`, and all
break-location and pre/post fields absent (`none`, not zero); moreover, for
any returned result the break-location field is populated only when
`has_break` is true. -/
theorem c9_no_break_fields (p : BreakParams) (df : List (ℕ × Option ℚ))
    (k : ℕ) (s : ℚ) (d : ℝ)
    (hn : 2 * p.min_segment + 1 ≤ (valuesOf df).length)
    (hbs : bestSplit (valuesOf df) p.min_segment = some (k, s))
    (hfin : (bicF (valuesOf df).length 4 s).sub
      (bicF (valuesOf df).length 2 (sse1Of (valuesOf df))) = .fin d)
    (hgt : ((p.bic_threshold : ℚ) : ℝ) < d) :
    (∃ r, find_trend_break p df = .ok r ∧ r.has_break = false ∧
      r.delta_bic = .fin d ∧ r.break_date = none ∧ r.pre_image_date = none ∧
      r.post_image_date = none ∧ r.pre_mean = none ∧ r.post_mean = none) ∧
    (∀ r', find_trend_break p df = .ok r' →
      r'.break_date.isSome = true → r'.has_break = true) := by
  have hn' : ¬ ((valuesOf df).length < 2 * p.min_segment + 1) := by omega
  have hd : ¬ hbLe ((bicF (valuesOf df).length 4 s).sub
      (bicF (valuesOf df).length 2 (sse1Of (valuesOf df)))) ((p.bic_threshold : ℚ) : ℝ) := by
    rw [hfin]
    exact not_le.mpr hgt
  constructor
  · exact ⟨_, ftb_nobreak p df k s hn' hbs hd, rfl, by rw [hfin], rfl, rfl, rfl, rfl, rfl⟩
  · intro r' h' hsome
    rw [ftb_nobreak p df k s hn' hbs hd] at h'
    rw [← Except.ok.inj h'] at hsome
    simp at hsome

lemma values_df13alt : valuesOf df13alt = y13alt := by decide

lemma sseAt6_y13alt : sseAt y13alt 6 = 108 / 35 := by
  have ht : (idxPts y13alt).take 6 = [(0,0),(1,1),(2,0),(3,1),(4,0),(5,1)] := by decide
  have hd : (idxPts y13alt).drop 6 = [(6,0),(7,1),(8,0),(9,1),(10,0),(11,1),(12,0)] := by decide
  rw [sseAt, ht, hd, linSSE_eq, linSSE_eq]
  norm_num

lemma sse1_y13alt : sse1Of y13alt = 42 / 13 := by
  have h : idxPts y13alt = [(0,0),(1,1),(2,0),(3,1),(4,0),(5,1),(6,0),(7,1),(8,0),(9,1),(10,0),(11,1),(12,0)] := by decide
  rw [sse1Of, h, linSSE_eq]
  norm_num

lemma bestSplit_y13alt : bestSplit y13alt 6 = some (6, 108 / 35) := by
  have hr : List.range' 6 (y13alt.length - 2 * 6) = [6] := by decide
  rw [bestSplit, hr]
  simp only [List.foldl_cons, List.foldl_nil]
  rw [sseAt6_y13alt]

/-- Witness for C9: the alternating 13-sample series with default
parameters — its BIC difference is finite and above `-10`, no break is
reported, and all optional fields are `none`. -/
theorem c9_no_break_fields_witness :
    ∃ d : ℝ, ((defaultParams.bic_threshold : ℚ) : ℝ) < d ∧
      ((∃ r, find_trend_break defaultParams df13alt = .ok r ∧ r.has_break = false ∧
        r.delta_bic = .fin d ∧ r.break_date = none ∧ r.pre_image_date = none ∧
        r.post_image_date = none ∧ r.pre_mean = none ∧ r.post_mean = none) ∧
      (∀ r', find_trend_break defaultParams df13alt = .ok r' →
        r'.break_date.isSome = true → r'.has_break = true)) := by
  obtain ⟨d, hfin0, hgt0⟩ := @delta_gt_of_ratio 13 (108 / 35) (42 / 13)
    (by norm_num) (by norm_num) (by norm_num) (by norm_num) (by norm_num)
  have hfin : (bicF (valuesOf df13alt).length 4 (108 / 35)).sub
      (bicF (valuesOf df13alt).length 2 (sse1Of (valuesOf df13alt))) = .fin d := by
    rw [values_df13alt, sse1_y13alt]
    exact hfin0
  have hbs : bestSplit (valuesOf df13alt) defaultParams.min_segment = some (6, 108 / 35) := by
    rw [values_df13alt]
    exact bestSplit_y13alt
  have hgt : ((defaultParams.bic_threshold : ℚ) : ℝ) < d := by
    have : ((defaultParams.bic_threshold : ℚ) : ℝ) = (-10 : ℝ) := by norm_num [defaultParams]
    rw [this]
    exact hgt0
  exact ⟨d, hgt, c9_no_break_fields defaultParams df13alt 6 (108 / 35) d (by decide) hbs hfin hgt⟩

/-- Witness for C10: the 12-sample example with `min_segment = 5`; the
detector reports a break and the three representative timestamps are in
order. -/
theorem c10_representative_order_witness :
    (prepSeries df12).Pairwise (fun a b => a.1 < b.1) ∧ 1 ≤ paramsM5.min_segment ∧
    (∃ r, find_trend_break paramsM5 df12 = .ok r ∧ r.has_break = true ∧
      (∃ k pi qi tb tp tq,
        bestSplit (valuesOf df12) paramsM5.min_segment = some (k, sseAt (valuesOf df12) k) ∧
        pi = preIdx (valuesOf df12) (qmean ((valuesOf df12).take k)) k paramsM5.pre_window ∧
        qi = postIdx (valuesOf df12) (qmean ((valuesOf df12).drop k)) (valuesOf df12).length k
          paramsM5.post_window paramsM5.min_gap_post ∧
        pi < k ∧ k ≤ qi ∧
        r.break_date = some tb ∧ r.pre_image_date = some tp ∧ r.post_image_date = some tq ∧
        tp < tb ∧ tb ≤ tq)) :=
  ⟨by decide, by decide, _, ftb_df12, rfl,
    c10_representative_order paramsM5 df12 _ (by decide) (by decide) ftb_df12 rfl⟩
